import Mathlib

/-!
Shallow embedding of the Pollex multi-agent system (Python) in Lean 4,
together with theorems settling the specification claims about its
memory subsystem (`src/core/memory.py`), its worker agents
(`src/agents/code.py`, `src/core/agent.py`) and its orchestrator
(`src/core/orchestrator.py`).

Conventions used throughout:
* Python floats that only store importances / scores are modelled as `ℚ`;
* Python `datetime` values are modelled by their seven calendar fields;
* mutation is modelled by explicit state passing;
* Python exceptions are modelled by `Except PyErr`;
* Python's stable `list.sort(key=...)` is modelled by `List.insertionSort`
  (any two stable sorts of a total preorder agree, so this is faithful).
-/

namespace Pollex

/-- JSON values, modelling the Python values that `json.dump`/`json.load`
round-trips (used for the `metadata : Dict[str, Any]` fields and for
decoded tool-call arguments). -/
inductive Json where
  | null : Json
  | bool (b : Bool) : Json
  | num (n : ℚ) : Json
  | str (s : String) : Json
  | arr (elems : List Json) : Json
  | obj (fields : List (String × Json)) : Json

/-- A Python `datetime.datetime` value, by its calendar components. -/
structure PyDateTime where
  year : Nat
  month : Nat
  day : Nat
  hour : Nat
  minute : Nat
  second : Nat
  microsecond : Nat
deriving DecidableEq

/-- Python `lst[-limit:]` for a nonnegative `limit`: for `limit = 0` the
slice `lst[-0:]` is `lst[0:]`, the whole list; otherwise it is the last
`limit` elements. -/
def pyLastSlice {α : Type} (l : List α) (limit : Nat) : List α :=
  if limit = 0 then l else l.drop (l.length - limit)

/-- Python `s[:n]` on a string for a nonnegative `n`. -/
def pyStrTake (s : String) (n : Nat) : String :=
  ⟨s.data.take n⟩

/-- Python `str.lower()`, character-wise. -/
def pyLower (s : String) : String := ⟨s.data.map Char.toLower⟩

/-- Accumulating splitter for `str.split()`: breaks at whitespace runs,
never emitting empty pieces. -/
def splitWsAux : List Char → List Char → List (List Char)
  | [], acc => if acc.isEmpty then [] else [acc.reverse]
  | c :: rest, acc =>
    if c.isWhitespace then
      if acc.isEmpty then splitWsAux rest [] else acc.reverse :: splitWsAux rest []
    else splitWsAux rest (c :: acc)

/-- Python `str.split()` with no argument: split on runs of whitespace,
discarding empty pieces. -/
def pySplitWs (s : String) : List String := (splitWsAux s.data []).map fun l => ⟨l⟩

/-- Python `needle in hay` on strings: substring containment. -/
def strContainsSub (needle hay : String) : Bool :=
  (List.range (hay.data.length + 1)).any fun i => needle.data.isPrefixOf (hay.data.drop i)

/-- One entry of the memory store (`MemoryItem` dataclass in
`src/core/memory.py`).  The dataclass default for `importance` is `0.5`. -/
structure MemoryItem where
  content : String
  timestamp : PyDateTime
  type : String
  metadata : List (String × Json)
  importance : ℚ

/-- The `Memory` object state: short-term and long-term stores with their
capacities (`short_term_limit = 50`, `long_term_limit = 200` in
`Memory.__init__`).  The `working` dict and `persist_path` play no role in
the claims about in-memory behaviour and are omitted. -/
structure Memory where
  short_term : List MemoryItem
  long_term : List MemoryItem
  short_term_limit : Nat
  long_term_limit : Nat

/-- A fresh `Memory()` built by `Memory.__init__` with no persisted data. -/
def Memory.init : Memory :=
  { short_term := [], long_term := [], short_term_limit := 50, long_term_limit := 200 }

/-- The comparison used by `self.long_term.sort(key=lambda x: x.importance)`:
ascending importance. -/
def impLe (x y : MemoryItem) : Prop := x.importance ≤ y.importance

instance : DecidableRel impLe := fun x y =>
  inferInstanceAs (Decidable (x.importance ≤ y.importance))

instance : IsTotal MemoryItem impLe := ⟨fun a b => le_total a.importance b.importance⟩

instance : IsTrans MemoryItem impLe := ⟨fun _ _ _ h1 h2 => le_trans h1 h2⟩

/-- `Memory.add_short_term`: append the new item, then if the store exceeds
`short_term_limit`, `pop(0)` the oldest entry. -/
def Memory.add_short_term (m : Memory) (now : PyDateTime) (content : String)
    (type : String) (metadata : List (String × Json)) : Memory :=
  let item : MemoryItem :=
    { content := content, timestamp := now, type := type, metadata := metadata,
      importance := 1/2 }
  let st := m.short_term ++ [item]
  if st.length > m.short_term_limit then { m with short_term := st.tail }
  else { m with short_term := st }

/-- The body of `Memory.add_long_term` acting on the long-term list: append
the new item, then if the store exceeds the capacity, stably sort ascending
by importance and `pop(0)` the minimum. -/
def evictStepLT (limit : Nat) (lt : List MemoryItem) (item : MemoryItem) : List MemoryItem :=
  let l2 := lt ++ [item]
  if l2.length > limit then (List.insertionSort impLe l2).tail else l2

/-- `Memory.add_long_term`: build the item and update the long-term store
by `evictStepLT`. -/
def Memory.add_long_term (m : Memory) (now : PyDateTime) (content : String)
    (type : String) (importance : ℚ) (metadata : List (String × Json)) : Memory :=
  let item : MemoryItem :=
    { content := content, timestamp := now, type := type, metadata := metadata,
      importance := importance }
  { m with long_term := evictStepLT m.long_term_limit m.long_term item }

/-- `Memory.get_context(limit)`: format the slice `short_term[-limit:]` as
`"[type] content"` lines joined by newlines. -/
def Memory.get_context (m : Memory) (limit : Nat) : String :=
  let recent := pyLastSlice m.short_term limit
  String.intercalate "\n" (recent.map fun item => "[" ++ item.type ++ "] " ++ item.content)

/-- The keyword score computed inside `Memory.get_relevant`:
`sum(1 for word in query_lower.split() if word in content_lower)`. -/
def matchCount (query_lower : String) (content : String) : Nat :=
  let content_lower := pyLower content
  ((pySplitWs query_lower).filter fun word => strContainsSub word content_lower).length

/-- The comparison used by `scored.sort(key=lambda x: -x[0])`:
ascending negated score, i.e. descending score. -/
def negKeyLe (x y : ℚ × MemoryItem) : Prop := -x.1 ≤ -y.1

instance : DecidableRel negKeyLe := fun x y =>
  inferInstanceAs (Decidable (-x.1 ≤ -y.1))

instance : IsTotal (ℚ × MemoryItem) negKeyLe := ⟨fun a b => le_total (-a.1) (-b.1)⟩

instance : IsTrans (ℚ × MemoryItem) negKeyLe := ⟨fun _ _ _ h1 h2 => le_trans h1 h2⟩

/-- The `scored` list built by the loop of `Memory.get_relevant`: every
entry of `short_term + long_term` whose keyword count is positive, paired
with `score * importance`. -/
def scoredEntries (m : Memory) (query : String) : List (ℚ × MemoryItem) :=
  let query_lower := pyLower query
  (m.short_term ++ m.long_term).filterMap fun item =>
    let score := matchCount query_lower item.content
    if 0 < score then some (((score : ℚ) * item.importance, item)) else none

/-- `Memory.get_relevant(query, limit)`: build `scored`, stably sort it by
descending paired score, truncate to `limit` and project the items. -/
def Memory.get_relevant (m : Memory) (query : String) (limit : Nat) : List MemoryItem :=
  let sorted := List.insertionSort negKeyLe (scoredEntries m query)
  (sorted.take limit).map Prod.snd

/-! ### `datetime.isoformat` / `datetime.fromisoformat`

`Memory._save` serializes timestamps with `item.timestamp.isoformat()` and
`Memory._load` reads them back with `datetime.fromisoformat(...)`.  These
stdlib functions are modelled faithfully at the character level for the
format `isoformat` emits: `YYYY-MM-DDTHH:MM:SS` with `.ffffff` appended
exactly when the microsecond field is nonzero. -/

/-- The ASCII digit character for `n < 10`. -/
def digitChar (n : Nat) : Char := Char.ofNat (48 + n)

/-- `n` printed in decimal, zero-padded to exactly `w` digits
(Python `"%0wd" % n` for `n < 10^w`). -/
def padDigits : Nat → Nat → List Char
  | 0, _ => []
  | w+1, n => padDigits w (n / 10) ++ [digitChar (n % 10)]

/-- The numeric value of a digit string. -/
def digitsVal (l : List Char) : Nat := l.foldl (fun a c => a * 10 + (c.toNat - 48)) 0

/-- Read exactly `w` digits from the front of `l`. -/
def readFixedNat (w : Nat) (l : List Char) : Option (Nat × List Char) :=
  let ds := l.take w
  if ds.length = w ∧ ds.all Char.isDigit then some (digitsVal ds, l.drop w) else none

/-- Consume one expected character. -/
def expectChar (c : Char) (l : List Char) : Option (List Char) :=
  match l with
  | [] => none
  | x :: rest => if x = c then some rest else none

/-- The character sequence produced by `datetime.isoformat()` (default
separator `T`; the fractional part is omitted when `microsecond == 0`). -/
def isoChars (dt : PyDateTime) : List Char :=
  padDigits 4 dt.year ++ ('-' :: (padDigits 2 dt.month ++ ('-' :: (padDigits 2 dt.day ++
  ('T' :: (padDigits 2 dt.hour ++ (':' :: (padDigits 2 dt.minute ++ (':' :: (padDigits 2 dt.second ++
  (if dt.microsecond = 0 then [] else '.' :: padDigits 6 dt.microsecond)))))))))))

/-- `datetime.isoformat()`. -/
def PyDateTime.isoformat (dt : PyDateTime) : String := ⟨isoChars dt⟩

/-- `datetime.fromisoformat` restricted to the shapes `isoformat` emits. -/
def parseIsoChars (l : List Char) : Option PyDateTime := do
  let (y, l) ← readFixedNat 4 l
  let l ← expectChar '-' l
  let (mo, l) ← readFixedNat 2 l
  let l ← expectChar '-' l
  let (d, l) ← readFixedNat 2 l
  let l ← expectChar 'T' l
  let (h, l) ← readFixedNat 2 l
  let l ← expectChar ':' l
  let (mi, l) ← readFixedNat 2 l
  let l ← expectChar ':' l
  let (s, l) ← readFixedNat 2 l
  match l with
  | [] => some ⟨y, mo, d, h, mi, s, 0⟩
  | '.' :: rest =>
    match readFixedNat 6 rest with
    | some (us, []) => some ⟨y, mo, d, h, mi, s, us⟩
    | _ => none
  | _ => none

/-- `datetime.fromisoformat`. -/
def PyDateTime.fromisoformat (s : String) : Option PyDateTime := parseIsoChars s.data

/-- Field bounds under which the ISO round trip is exact; every actual
`datetime` value satisfies them. -/
def PyDateTime.Valid (dt : PyDateTime) : Prop :=
  dt.year < 10000 ∧ dt.month < 100 ∧ dt.day < 100 ∧ dt.hour < 100 ∧
  dt.minute < 100 ∧ dt.second < 100 ∧ dt.microsecond < 1000000

instance (dt : PyDateTime) : Decidable dt.Valid := by
  unfold PyDateTime.Valid; infer_instance

lemma digitChar_toNat (d : Nat) (h : d < 10) : (digitChar d).toNat = 48 + d := by
  interval_cases d <;> decide

lemma digitChar_isDigit (d : Nat) (h : d < 10) : (digitChar d).isDigit = true := by
  interval_cases d <;> decide

lemma padDigits_length (w n : Nat) : (padDigits w n).length = w := by
  induction w generalizing n with
  | zero => simp [padDigits]
  | succ w ih => simp [padDigits, ih]

lemma padDigits_all_isDigit (w n : Nat) : (padDigits w n).all Char.isDigit = true := by
  induction w generalizing n with
  | zero => simp [padDigits]
  | succ w ih =>
    simp only [padDigits, List.all_append, ih, List.all_cons, List.all_nil, Bool.and_true,
      Bool.true_and]
    exact digitChar_isDigit _ (Nat.mod_lt _ (by norm_num))

lemma foldl_padDigits (w : Nat) : ∀ (n a : Nat),
    (padDigits w n).foldl (fun a c => a * 10 + (c.toNat - 48)) a = a * 10^w + n % 10^w := by
  induction w with
  | zero => intro n a; simp [padDigits, Nat.mod_one]
  | succ w ih =>
    intro n a
    rw [padDigits, List.foldl_append, ih]
    simp only [List.foldl]
    rw [digitChar_toNat _ (Nat.mod_lt _ (by norm_num)), Nat.add_sub_cancel_left]
    have h10 : (10:Nat)^(w+1) = 10 * 10^w := by ring
    rw [h10, Nat.mod_mul]
    ring

lemma digitsVal_padDigits (w n : Nat) (h : n < 10^w) : digitsVal (padDigits w n) = n := by
  unfold digitsVal
  rw [foldl_padDigits, Nat.zero_mul, Nat.zero_add, Nat.mod_eq_of_lt h]

lemma readFixedNat_pad (w n : Nat) (rest : List Char) (h : n < 10^w) :
    readFixedNat w (padDigits w n ++ rest) = some (n, rest) := by
  unfold readFixedNat
  have hlen : (padDigits w n).length = w := padDigits_length w n
  have htake : (padDigits w n ++ rest).take w = padDigits w n := List.take_left' hlen
  have hdrop : (padDigits w n ++ rest).drop w = rest := List.drop_left' hlen
  simp only [htake, hdrop]
  rw [if_pos ⟨hlen, padDigits_all_isDigit w n⟩, digitsVal_padDigits w n h]

lemma readFixedNat_pad_nil (w n : Nat) (h : n < 10^w) :
    readFixedNat w (padDigits w n) = some (n, []) := by
  have := readFixedNat_pad w n [] h
  simpa using this

lemma expectChar_cons (c : Char) (rest : List Char) : expectChar c (c :: rest) = some rest := by
  simp [expectChar]

/-- The stdlib round trip: parsing the output of `isoformat` recovers the
`datetime` exactly. -/
theorem parseIso_isoChars (dt : PyDateTime) (h : dt.Valid) :
    parseIsoChars (isoChars dt) = some dt := by
  obtain ⟨y, mo, d, hh, mi, s, us⟩ := dt
  obtain ⟨h1, h2, h3, h4, h5, h6, h7⟩ := h
  simp only [PyDateTime.Valid] at *
  unfold parseIsoChars isoChars
  rw [readFixedNat_pad 4 y _ (by norm_num at h1 ⊢; omega)]
  simp only [Option.bind_eq_bind, Option.some_bind]
  rw [expectChar_cons, Option.some_bind]
  rw [readFixedNat_pad 2 mo _ (by norm_num; omega), Option.some_bind]
  rw [expectChar_cons, Option.some_bind]
  rw [readFixedNat_pad 2 d _ (by norm_num; omega), Option.some_bind]
  rw [expectChar_cons, Option.some_bind]
  rw [readFixedNat_pad 2 hh _ (by norm_num; omega), Option.some_bind]
  rw [expectChar_cons, Option.some_bind]
  rw [readFixedNat_pad 2 mi _ (by norm_num; omega), Option.some_bind]
  rw [expectChar_cons, Option.some_bind]
  rw [readFixedNat_pad 2 s _ (by norm_num; omega), Option.some_bind]
  by_cases h0 : us = 0
  · subst h0
    simp
  · rw [if_neg h0]
    simp [readFixedNat_pad_nil 6 us (by norm_num; omega)]

theorem fromisoformat_isoformat (dt : PyDateTime) (h : dt.Valid) :
    PyDateTime.fromisoformat dt.isoformat = some dt :=
  parseIso_isoChars dt h

/-! ### Persistence (`Memory._save` / `Memory._load`)

`json.dump` / `json.load` round-trip the structured document exactly for
JSON-representable contents, so the persisted file is modelled by the
structured document itself: the list of objects under the `"long_term"`
key. -/

/-- One object of the `"long_term"` array written by `Memory._save`.
`_save` always writes all five keys; `_load` reads `"metadata"` and
`"importance"` with `dict.get` defaults, hence the `Option` fields. -/
structure SavedItem where
  content : String
  timestamp : String
  type : String
  metadata : Option (List (String × Json))
  importance : Option ℚ

/-- `Memory._save`: serialize every long-term entry (content, ISO
timestamp, type, metadata, importance). -/
def Memory.save (m : Memory) : List SavedItem :=
  m.long_term.map fun item =>
    { content := item.content, timestamp := item.timestamp.isoformat, type := item.type,
      metadata := some item.metadata, importance := some item.importance }

/-- One iteration of the `_load` loop: rebuild a `MemoryItem` from a saved
object (`datetime.fromisoformat` may raise, modelled by `Option`). -/
def loadItem (d : SavedItem) : Option MemoryItem :=
  (PyDateTime.fromisoformat d.timestamp).map fun ts =>
    { content := d.content, timestamp := ts, type := d.type,
      metadata := d.metadata.getD [], importance := d.importance.getD (1/2) }

/-- `Memory._load`: rebuild and append the items in document order,
stopping at the first failure (a raised exception). -/
def loadEntries : List SavedItem → Option (List MemoryItem)
  | [] => some []
  | d :: ds => do
    let it ← loadItem d
    let rest ← loadEntries ds
    pure (it :: rest)

/-- `Memory(persist_path)` when the file at the persistence target holds
`doc`: a fresh memory whose `long_term` is the loaded entries. -/
def Memory.ofPersisted (doc : List SavedItem) : Option Memory :=
  (loadEntries doc).map fun lt =>
    { short_term := [], long_term := lt, short_term_limit := 50, long_term_limit := 200 }

/-! ### Insertion runs -/

/-- The arguments of one `add_short_term` call. -/
structure STInsert where
  now : PyDateTime
  content : String
  type : String
  metadata : List (String × Json)

/-- A sequence of `add_short_term` calls. -/
def Memory.addAllST (m : Memory) (ins : List STInsert) : Memory :=
  ins.foldl (fun mm i => mm.add_short_term i.now i.content i.type i.metadata) m

/-- The arguments of one `add_long_term` call. -/
structure LTInsert where
  now : PyDateTime
  content : String
  type : String
  importance : ℚ
  metadata : List (String × Json)

/-- The `MemoryItem` built by `add_long_term` from its arguments. -/
def LTInsert.item (i : LTInsert) : MemoryItem :=
  { content := i.content, timestamp := i.now, type := i.type, metadata := i.metadata,
    importance := i.importance }

/-- A sequence of `add_long_term` calls. -/
def Memory.addAllLT (m : Memory) (ins : List LTInsert) : Memory :=
  ins.foldl (fun mm i => mm.add_long_term i.now i.content i.type i.importance i.metadata) m

/-! ### Stability of the stable sort

Python's `list.sort` is stable, and so is the `List.insertionSort` that
models it: a sort by a key never reorders two elements with equal keys.
This is captured through `Pairwise` of the tie-order relation. -/

lemma pairwise_tie_orderedInsert {α : Type} (key : α → ℚ) (tag : α → Nat)
    (r : α → α → Prop) [DecidableRel r] (hr : ∀ x y, r x y ↔ key x ≤ key y) (a : α) :
    ∀ (l : List α),
    (∀ y ∈ l, key a = key y → tag a < tag y) →
    l.Pairwise (fun x y => key x = key y → tag x < tag y) →
    (l.orderedInsert r a).Pairwise (fun x y => key x = key y → tag x < tag y) := by
  intro l
  induction l with
  | nil => intro _ _; simp [List.orderedInsert]
  | cons b t ih =>
    intro ha hl
    rw [List.orderedInsert]
    split_ifs with hab
    · exact List.Pairwise.cons (fun y hy => ha y hy) hl
    · rw [List.pairwise_cons] at hl
      refine List.Pairwise.cons ?_
        (ih (fun y hy hk => ha y (List.mem_cons_of_mem b hy) hk) hl.2)
      intro z hz
      rcases (List.mem_orderedInsert r).1 hz with hza | hzt
      · intro hk
        have hlt : key b < key a := lt_of_not_le (fun hle => hab ((hr a b).2 hle))
        rw [hza] at hk
        exact absurd hk (ne_of_lt hlt)
      · exact hl.1 z hzt

lemma pairwise_tie_insertionSort {α : Type} (key : α → ℚ) (tag : α → Nat)
    (r : α → α → Prop) [DecidableRel r] (hr : ∀ x y, r x y ↔ key x ≤ key y) :
    ∀ (l : List α),
    l.Pairwise (fun x y => key x = key y → tag x < tag y) →
    (l.insertionSort r).Pairwise (fun x y => key x = key y → tag x < tag y) := by
  intro l
  induction l with
  | nil => intro _; simp [List.insertionSort]
  | cons b t ih =>
    intro hl
    rw [List.insertionSort]
    rw [List.pairwise_cons] at hl
    exact pairwise_tie_orderedInsert key tag r hr b _
      (fun y hy => hl.1 y ((List.mem_insertionSort r).1 hy)) (ih hl.2)

/-! ### Tagged simulation of the long-term store

To speak about original insertion order, the long-term run is shadowed by
a run on items tagged with their insertion index.  The tags are ignored by
the sort key, so the tagged run projects onto the real run of
`add_long_term` (proved below), while its `Pairwise tagTie` invariant
states that equal-importance entries always sit in insertion order. -/

/-- Ascending importance on tagged items: the same key the code sorts by,
lifted over the tag. -/
def tagImpLe (x y : Nat × MemoryItem) : Prop := x.2.importance ≤ y.2.importance

instance : DecidableRel tagImpLe := fun x y =>
  inferInstanceAs (Decidable (x.2.importance ≤ y.2.importance))

instance : IsTotal (Nat × MemoryItem) tagImpLe :=
  ⟨fun a b => le_total a.2.importance b.2.importance⟩

instance : IsTrans (Nat × MemoryItem) tagImpLe := ⟨fun _ _ _ h1 h2 => le_trans h1 h2⟩

/-- Equal-importance entries are ordered by insertion index. -/
def tagTie (x y : Nat × MemoryItem) : Prop := x.2.importance = y.2.importance → x.1 < y.1

instance : DecidableRel tagTie := fun x y =>
  inferInstanceAs (Decidable (x.2.importance = y.2.importance → x.1 < y.1))

/-- The tagged eviction step, mirroring `evictStepLT`. -/
def evictStepTagged (limit : Nat) (l : List (Nat × MemoryItem)) (a : Nat × MemoryItem) :
    List (Nat × MemoryItem) :=
  let l2 := l ++ [a]
  if l2.length > limit then (List.insertionSort tagImpLe l2).tail else l2

/-- The tagged run: items tagged with their position in the insertion
sequence, folded through the tagged eviction step. -/
def runTaggedLT (limit : Nat) (ins : List LTInsert) : List (Nat × MemoryItem) :=
  ((ins.map LTInsert.item).enum).foldl (evictStepTagged limit) []

lemma map_snd_evictStepTagged (limit : Nat) (l : List (Nat × MemoryItem))
    (a : Nat × MemoryItem) :
    (evictStepTagged limit l a).map Prod.snd = evictStepLT limit (l.map Prod.snd) a.2 := by
  unfold evictStepTagged evictStepLT
  simp only [List.length_append, List.length_map, List.length_singleton]
  split_ifs with h
  · rw [List.map_tail, List.map_insertionSort tagImpLe impLe Prod.snd _
      (fun x _ y _ => Iff.rfl), List.map_append]
    rfl
  · simp [List.map_append]

lemma foldl_evict_tagged_snd (limit : Nat) : ∀ (items : List MemoryItem) (k : Nat)
    (t : List (Nat × MemoryItem)),
    ((List.enumFrom k items).foldl (evictStepTagged limit) t).map Prod.snd
      = items.foldl (evictStepLT limit) (t.map Prod.snd) := by
  intro items
  induction items with
  | nil => intro k t; simp [List.enumFrom]
  | cons x xs ih =>
    intro k t
    rw [List.enumFrom_cons]
    simp only [List.foldl_cons]
    rw [ih (k+1) (evictStepTagged limit t (k, x)), map_snd_evictStepTagged]

lemma mem_evictStepTagged {limit : Nat} {t : List (Nat × MemoryItem)}
    {a p : Nat × MemoryItem} (hp : p ∈ evictStepTagged limit t a) : p ∈ t ++ [a] := by
  unfold evictStepTagged at hp
  simp only at hp
  split_ifs at hp with h
  · exact (List.mem_insertionSort tagImpLe).1 (List.mem_of_mem_tail hp)
  · exact hp

lemma pairwise_evictStepTagged {limit k : Nat} {t : List (Nat × MemoryItem)}
    {item : MemoryItem} (hb : ∀ p ∈ t, p.1 < k) (hp : t.Pairwise tagTie) :
    (evictStepTagged limit t (k, item)).Pairwise tagTie := by
  have happ : (t ++ [(k, item)]).Pairwise tagTie := by
    rw [List.pairwise_append]
    refine ⟨hp, List.pairwise_singleton _ _, ?_⟩
    intro x hx y hy
    rw [List.mem_singleton] at hy
    subst hy
    exact fun _ => hb x hx
  unfold evictStepTagged
  simp only
  split_ifs with h
  · exact List.Pairwise.sublist (List.tail_sublist _)
      (pairwise_tie_insertionSort (fun p : Nat × MemoryItem => p.2.importance) Prod.fst
        tagImpLe (fun _ _ => Iff.rfl) _ happ)
  · exact happ

lemma foldl_evict_tagged_inv (limit : Nat) : ∀ (items : List MemoryItem) (k : Nat)
    (t : List (Nat × MemoryItem)),
    (∀ p ∈ t, p.1 < k) → t.Pairwise tagTie →
    ((List.enumFrom k items).foldl (evictStepTagged limit) t).Pairwise tagTie ∧
    ∀ p ∈ (List.enumFrom k items).foldl (evictStepTagged limit) t, p.1 < k + items.length := by
  intro items
  induction items with
  | nil =>
    intro k t hb hp
    refine ⟨by simpa [List.enumFrom] using hp, ?_⟩
    intro p hmem
    simp only [List.enumFrom, List.foldl_nil] at hmem
    simpa using lt_of_lt_of_le (hb p hmem) (Nat.le_add_right k 0)
  | cons x xs ih =>
    intro k t hb hp
    rw [List.enumFrom_cons]
    simp only [List.foldl_cons, List.length_cons]
    have hb' : ∀ p ∈ evictStepTagged limit t (k, x), p.1 < k + 1 := by
      intro p hmem
      rcases List.mem_append.1 (mem_evictStepTagged hmem) with h1 | h1
      · exact lt_trans (hb p h1) (Nat.lt_succ_self k)
      · rw [List.mem_singleton] at h1
        subst h1
        exact Nat.lt_succ_self k
    have := ih (k+1) (evictStepTagged limit t (k, x)) hb' (pairwise_evictStepTagged hb hp)
    refine ⟨this.1, ?_⟩
    intro p hmem
    have := this.2 p hmem
    omega

lemma evictStepLT_len {limit : Nat} (lt : List MemoryItem) (item : MemoryItem)
    (h : lt.length ≤ limit) : (evictStepLT limit lt item).length ≤ limit := by
  unfold evictStepLT
  simp only
  split_ifs with hgt
  · rw [List.length_tail, List.length_insertionSort]
    simp only [List.length_append, List.length_singleton]
    omega
  · simp only [List.length_append, List.length_singleton] at hgt ⊢
    omega

lemma foldl_evictLT_len (limit : Nat) : ∀ (items : List MemoryItem) (lt : List MemoryItem),
    lt.length ≤ limit → (items.foldl (evictStepLT limit) lt).length ≤ limit := by
  intro items
  induction items with
  | nil => intro lt h; exact h
  | cons x xs ih =>
    intro lt h
    simp only [List.foldl_cons]
    exact ih _ (evictStepLT_len lt x h)

lemma addAllLT_long_term : ∀ (ins : List LTInsert) (m : Memory),
    (m.addAllLT ins).long_term
      = (ins.map LTInsert.item).foldl (evictStepLT m.long_term_limit) m.long_term ∧
    (m.addAllLT ins).long_term_limit = m.long_term_limit := by
  intro ins
  induction ins with
  | nil => intro m; exact ⟨rfl, rfl⟩
  | cons i ins ih =>
    intro m
    have hstep : Memory.addAllLT m (i :: ins)
        = Memory.addAllLT (m.add_long_term i.now i.content i.type i.importance i.metadata)
            ins := rfl
    rw [hstep]
    have hm' : (m.add_long_term i.now i.content i.type i.importance i.metadata).long_term
        = evictStepLT m.long_term_limit m.long_term i.item := rfl
    have hlim : (m.add_long_term i.now i.content i.type i.importance i.metadata).long_term_limit
        = m.long_term_limit := rfl
    have := ih (m.add_long_term i.now i.content i.type i.importance i.metadata)
    rw [hm', hlim] at this
    simpa [List.map_cons, List.foldl_cons] using this

lemma evict_overflow_characterization (L : Nat) (t : List (Nat × MemoryItem))
    (a : Nat × MemoryItem) (hp : (t ++ [a]).Pairwise tagTie)
    (hov : (t ++ [a]).length > L) :
    ∃ e rest, List.insertionSort tagImpLe (t ++ [a]) = e :: rest ∧
      evictStepTagged L t a = rest ∧
      (t ++ [a]).Perm (e :: rest) ∧
      (∀ x ∈ t ++ [a], e.2.importance ≤ x.2.importance) ∧
      (∀ x ∈ t ++ [a], x.2.importance = e.2.importance → e.1 ≤ x.1) := by
  have hlen : (List.insertionSort tagImpLe (t ++ [a])).length = (t ++ [a]).length :=
    List.length_insertionSort _ _
  obtain ⟨e, rest, hsort⟩ : ∃ e rest, List.insertionSort tagImpLe (t ++ [a]) = e :: rest := by
    cases hs : List.insertionSort tagImpLe (t ++ [a]) with
    | nil =>
      exfalso
      rw [hs, List.length_nil] at hlen
      omega
    | cons e rest => exact ⟨e, rest, rfl⟩
  have hperm : (t ++ [a]).Perm (e :: rest) := by
    have := List.perm_insertionSort tagImpLe (t ++ [a])
    rw [hsort] at this
    exact this.symm
  have hsorted : List.Sorted tagImpLe (e :: rest) := by
    have := List.sorted_insertionSort tagImpLe (t ++ [a])
    rwa [hsort] at this
  have htie : (e :: rest).Pairwise tagTie := by
    have := pairwise_tie_insertionSort (fun p : Nat × MemoryItem => p.2.importance) Prod.fst
      tagImpLe (fun _ _ => Iff.rfl) _ hp
    rwa [hsort] at this
  refine ⟨e, rest, hsort, ?_, hperm, ?_, ?_⟩
  · unfold evictStepTagged
    simp only
    rw [if_pos hov, hsort]
    rfl
  · intro x hx
    rcases List.mem_cons.1 (hperm.mem_iff.1 hx) with rfl | hrest
    · exact le_refl _
    · exact List.rel_of_sorted_cons hsorted x hrest
  · intro x hx hk
    rcases List.mem_cons.1 (hperm.mem_iff.1 hx) with rfl | hrest
    · exact le_refl _
    · exact le_of_lt ((List.pairwise_cons.1 htie).1 x hrest hk.symm)

/-- C1: for every sequence of `add_long_term` insertions from a fresh
memory: (i) the long-term store never exceeds its capacity 200; (ii) the
insertion-index-tagged simulation projects exactly onto the real run;
(iii) along the whole run, entries of equal importance always sit in
original insertion order, and every tag is a valid insertion index;
(iv) at any overflowing step, the evicted entry
is the head of the stable ascending sort: it has globally minimum
importance, and among equal-importance entries it is the one inserted
first; the survivors are exactly the other entries. -/
theorem long_term_eviction_policy (ins : List LTInsert) :
    (Memory.init.addAllLT ins).long_term.length ≤ 200 ∧
    (runTaggedLT 200 ins).map Prod.snd = (Memory.init.addAllLT ins).long_term ∧
    (runTaggedLT 200 ins).Pairwise tagTie ∧
    (∀ x ∈ runTaggedLT 200 ins, x.1 < ins.length) ∧
    (∀ (L : Nat) (t : List (Nat × MemoryItem)) (a : Nat × MemoryItem),
      (t ++ [a]).Pairwise tagTie → (t ++ [a]).length > L →
      ∃ e rest, List.insertionSort tagImpLe (t ++ [a]) = e :: rest ∧
        evictStepTagged L t a = rest ∧
        (t ++ [a]).Perm (e :: rest) ∧
        (∀ x ∈ t ++ [a], e.2.importance ≤ x.2.importance) ∧
        (∀ x ∈ t ++ [a], x.2.importance = e.2.importance → e.1 ≤ x.1)) := by
  have hrun := addAllLT_long_term ins Memory.init
  have hlimit : Memory.init.long_term_limit = 200 := rfl
  refine ⟨?_, ?_, ?_, ?_, ?_⟩
  · rw [hrun.1, hlimit]
    exact foldl_evictLT_len 200 _ _ (by simp [Memory.init])
  · unfold runTaggedLT
    rw [show List.enum ((ins.map LTInsert.item)) = List.enumFrom 0 (ins.map LTInsert.item)
        from rfl,
      foldl_evict_tagged_snd 200 _ 0 [], hrun.1, hlimit]
    rfl
  · unfold runTaggedLT
    exact (foldl_evict_tagged_inv 200 _ 0 [] (by simp) (List.Pairwise.nil)).1
  · intro x hx
    have := (foldl_evict_tagged_inv 200 (ins.map LTInsert.item) 0 [] (by simp)
      (List.Pairwise.nil)).2 x (by simpa [runTaggedLT] using hx)
    simpa using this
  · intro L t a hp hov
    exact evict_overflow_characterization L t a hp hov

/-- A plain item for concrete witnesses. -/
def demoItem (c : String) : MemoryItem :=
  { content := c, timestamp := ⟨2024,1,1,0,0,0,0⟩, type := "context", metadata := [],
    importance := 1/2 }

/-- Three equal-importance tagged items for the C1 witness. -/
def demoTaggedT : List (Nat × MemoryItem) := [(0, demoItem "p"), (1, demoItem "q")]

/-- C1 witness: with capacity 2 and three equal-importance entries, the
overflow step evicts the entry with the least insertion index. -/
theorem long_term_eviction_policy_witness :
    (Memory.init.addAllLT []).long_term.length ≤ 200 ∧
    List.Pairwise tagTie (demoTaggedT ++ [(2, demoItem "r")]) ∧
    (demoTaggedT ++ [(2, demoItem "r")]).length > 2 ∧
    (∃ e rest, List.insertionSort tagImpLe (demoTaggedT ++ [(2, demoItem "r")]) = e :: rest ∧
      evictStepTagged 2 demoTaggedT (2, demoItem "r") = rest ∧
      (demoTaggedT ++ [(2, demoItem "r")]).Perm (e :: rest) ∧
      (∀ x ∈ demoTaggedT ++ [(2, demoItem "r")], e.2.importance ≤ x.2.importance) ∧
      (∀ x ∈ demoTaggedT ++ [(2, demoItem "r")],
        x.2.importance = e.2.importance → e.1 ≤ x.1)) :=
  ⟨(long_term_eviction_policy []).1,
   by simp [demoTaggedT, tagTie, demoItem], by decide,
   (long_term_eviction_policy []).2.2.2.2 2 demoTaggedT (2, demoItem "r")
     (by simp [demoTaggedT, tagTie, demoItem]) (by decide)⟩

/-! ### Short-term store lemmas -/

lemma add_short_term_limit_eq (m : Memory) (now : PyDateTime) (c t : String)
    (md : List (String × Json)) :
    (m.add_short_term now c t md).short_term_limit = m.short_term_limit := by
  simp only [Memory.add_short_term]
  split <;> rfl

lemma add_short_term_len_le (m : Memory) (now : PyDateTime) (c t : String)
    (md : List (String × Json)) (h : m.short_term.length ≤ m.short_term_limit) :
    (m.add_short_term now c t md).short_term.length ≤ m.short_term_limit := by
  simp only [Memory.add_short_term]
  split_ifs with hgt
  · simp only [List.length_tail, List.length_append, List.length_singleton]
    omega
  · simp only [List.length_append, List.length_singleton] at hgt ⊢
    omega

lemma addAllST_invariant : ∀ (ins : List STInsert) (m : Memory),
    m.short_term.length ≤ m.short_term_limit →
    (m.addAllST ins).short_term.length ≤ (m.addAllST ins).short_term_limit ∧
    (m.addAllST ins).short_term_limit = m.short_term_limit := by
  intro ins
  induction ins with
  | nil => intro m h; exact ⟨h, rfl⟩
  | cons i ins ih =>
    intro m h
    have hstep : Memory.addAllST m (i :: ins)
        = Memory.addAllST (m.add_short_term i.now i.content i.type i.metadata) ins := rfl
    rw [hstep]
    have h1 := add_short_term_len_le m i.now i.content i.type i.metadata h
    have h2 := add_short_term_limit_eq m i.now i.content i.type i.metadata
    have := ih (m.add_short_term i.now i.content i.type i.metadata) (by rw [h2]; exact h1)
    exact ⟨this.1, by rw [this.2, h2]⟩

lemma tail_append_of_ne_nil {α : Type} (xs ys : List α) (h : xs ≠ []) :
    (xs ++ ys).tail = xs.tail ++ ys := by
  cases xs with
  | nil => exact absurd rfl h
  | cons a l => rfl

/-- C5: every sequence of `add_short_term` insertions keeps the short-term
store at or below its capacity (50 from a fresh memory); an insertion into
a full store evicts exactly the oldest entry (the new item goes to the
back, the head is popped, the relative order of the survivors is
unchanged), and an insertion into a non-full store just appends. -/
theorem short_term_fifo_invariant :
    (∀ ins : List STInsert, (Memory.init.addAllST ins).short_term.length ≤ 50) ∧
    (∀ (m : Memory) (now : PyDateTime) (c t : String) (md : List (String × Json)),
      m.short_term.length ≤ m.short_term_limit →
      ((m.add_short_term now c t md).short_term.length ≤ m.short_term_limit ∧
       (m.short_term.length = m.short_term_limit → 0 < m.short_term_limit →
         (m.add_short_term now c t md).short_term
           = m.short_term.tail
               ++ [{ content := c, timestamp := now, type := t, metadata := md,
                     importance := 1/2 }]) ∧
       (m.short_term.length < m.short_term_limit →
         (m.add_short_term now c t md).short_term
           = m.short_term
               ++ [{ content := c, timestamp := now, type := t, metadata := md,
                     importance := 1/2 }]))) := by
  constructor
  · intro ins
    have := addAllST_invariant ins Memory.init (by simp [Memory.init])
    have hlim : (Memory.init.addAllST ins).short_term_limit = 50 := this.2
    rw [← hlim]
    exact this.1
  · intro m now c t md h
    refine ⟨add_short_term_len_le m now c t md h, ?_, ?_⟩
    · intro hfull hpos
      simp only [Memory.add_short_term]
      rw [if_pos (by simp only [List.length_append, List.length_singleton]; omega)]
      simp only
      rw [tail_append_of_ne_nil _ _ (by
        intro hnil
        rw [hnil] at hfull
        simp only [List.length_nil] at hfull
        omega)]
    · intro hlt
      simp only [Memory.add_short_term]
      rw [if_neg (by simp only [List.length_append, List.length_singleton]; omega)]

/-- A concrete full short-term store of capacity 2. -/
def demoMemST : Memory :=
  { short_term := [demoItem "a", demoItem "b"],
    long_term := [], short_term_limit := 2, long_term_limit := 200 }

/-- C5 witness: inserting a third item into the concrete full store of
capacity 2 evicts exactly the oldest. -/
theorem short_term_fifo_invariant_witness :
    demoMemST.short_term.length ≤ demoMemST.short_term_limit ∧
    (demoMemST.add_short_term ⟨2024,1,1,0,0,1,0⟩ "c" "context" []).short_term
      = demoMemST.short_term.tail
          ++ [{ content := "c", timestamp := ⟨2024,1,1,0,0,1,0⟩, type := "context",
                metadata := [], importance := 1/2 }] :=
  ⟨by simp [demoMemST],
   ((short_term_fifo_invariant.2 demoMemST _ _ _ _ (by simp [demoMemST])).2.1
     (by simp [demoMemST]) (by norm_num [demoMemST]))⟩

/-! ### C10: `get_context` with `limit = 0` -/

/-- C10: on a non-empty short-term store, `get_context(0)` formats all
short-term entries, because the slice `short_term[-0:]` is the whole
list. -/
theorem get_context_zero_all_entries (m : Memory) (_h : m.short_term ≠ []) :
    m.get_context 0
      = String.intercalate "\n"
          (m.short_term.map fun item => "[" ++ item.type ++ "] " ++ item.content) ∧
    pyLastSlice m.short_term 0 = m.short_term := by
  constructor
  · simp [Memory.get_context, pyLastSlice]
  · simp [pyLastSlice]

/-- A concrete two-entry short-term store. -/
def demoMemCtx : Memory :=
  { short_term := [demoItem "one", demoItem "two"],
    long_term := [], short_term_limit := 50, long_term_limit := 200 }

/-- C10 witness: with two concrete entries, `get_context 0` lists both. -/
theorem get_context_zero_all_entries_witness :
    demoMemCtx.short_term ≠ [] ∧
    demoMemCtx.get_context 0
      = String.intercalate "\n"
          (demoMemCtx.short_term.map fun item => "[" ++ item.type ++ "] " ++ item.content) :=
  ⟨by simp [demoMemCtx], (get_context_zero_all_entries _ (by simp [demoMemCtx])).1⟩

/-! ### C4: `get_relevant` -/

/-- Membership characterization of the `scored` list: kept entries come
from the concatenated stores, have positive keyword count, and carry
`score * importance` as first component. -/
lemma mem_scoredEntries {m : Memory} {query : String} {p : ℚ × MemoryItem}
    (hp : p ∈ scoredEntries m query) :
    p.2 ∈ m.short_term ++ m.long_term ∧ 0 < matchCount (pyLower query) p.2.content ∧
    p.1 = (matchCount (pyLower query) p.2.content : ℚ) * p.2.importance := by
  unfold scoredEntries at hp
  simp only at hp
  obtain ⟨item, hitem, hf⟩ := List.mem_filterMap.1 hp
  by_cases hsc : 0 < matchCount (pyLower query) item.content
  · rw [if_pos hsc] at hf
    obtain rfl := Option.some.inj hf
    exact ⟨hitem, hsc, rfl⟩
  · rw [if_neg hsc] at hf
    exact absurd hf (by simp)

/-- Tags paired over negated scores: the order the code sorts tagged
scored entries by. -/
def tagNegLe (x y : Nat × (ℚ × MemoryItem)) : Prop := -x.2.1 ≤ -y.2.1

instance : DecidableRel tagNegLe := fun x y =>
  inferInstanceAs (Decidable (-x.2.1 ≤ -y.2.1))

/-- Equal-score tagged scored entries are ordered by position. -/
def tieNeg (x y : Nat × (ℚ × MemoryItem)) : Prop := -x.2.1 = -y.2.1 → x.1 < y.1

lemma fst_ge_of_mem_enumFrom {β : Type} : ∀ {l : List β} {k : Nat}
    {p : Nat × β}, p ∈ List.enumFrom k l → k ≤ p.1 := by
  intro l
  induction l with
  | nil => intro k p hp; simp [List.enumFrom] at hp
  | cons x xs ih =>
    intro k p hp
    rw [List.enumFrom_cons] at hp
    rcases List.mem_cons.1 hp with rfl | hmem
    · exact le_refl _
    · exact le_trans (Nat.le_succ k) (ih hmem)

lemma pairwise_fst_lt_enumFrom {β : Type} : ∀ (l : List β) (k : Nat),
    (List.enumFrom k l).Pairwise (fun x y : Nat × β => x.1 < y.1) := by
  intro l
  induction l with
  | nil => intro k; simp [List.enumFrom]
  | cons x xs ih =>
    intro k
    rw [List.enumFrom_cons]
    exact List.Pairwise.cons
      (fun p hp => lt_of_lt_of_le (Nat.lt_succ_self k) (fst_ge_of_mem_enumFrom hp)) (ih (k+1))

/-- C4 (amended): `get_relevant` returns at most `limit` entries, all drawn
from `short_term + long_term` with a positive keyword-match count, in
weakly descending order of `count * importance`, and the stable sort keeps
equal-score entries in their original store order (shown through the
position-tagged simulation, which projects onto `get_relevant`).  Entries
with a positive count but zero importance — final score `0` — are kept,
which is what the counterexample exhibits against the claim as stated. -/
theorem get_relevant_amended (m : Memory) (query : String) (limit : Nat) :
    (∀ x ∈ m.get_relevant query limit,
      x ∈ m.short_term ++ m.long_term ∧ 0 < matchCount (pyLower query) x.content) ∧
    (m.get_relevant query limit).length ≤ limit ∧
    (m.get_relevant query limit).Pairwise
      (fun x y => (matchCount (pyLower query) y.content : ℚ) * y.importance
        ≤ (matchCount (pyLower query) x.content : ℚ) * x.importance) ∧
    ((List.insertionSort tagNegLe ((scoredEntries m query).enum)).take limit).map
        (fun p => p.2.2) = m.get_relevant query limit ∧
    (List.insertionSort tagNegLe ((scoredEntries m query).enum)).Pairwise tieNeg := by
  have hmem_result : ∀ x ∈ m.get_relevant query limit,
      ∃ p ∈ scoredEntries m query, p.2 = x := by
    intro x hx
    unfold Memory.get_relevant at hx
    simp only at hx
    obtain ⟨p, hp, rfl⟩ := List.mem_map.1 hx
    exact ⟨p, (List.mem_insertionSort negKeyLe).1 (List.mem_of_mem_take hp), rfl⟩
  refine ⟨?_, ?_, ?_, ?_, ?_⟩
  · intro x hx
    obtain ⟨p, hp, rfl⟩ := hmem_result x hx
    have := mem_scoredEntries hp
    exact ⟨this.1, this.2.1⟩
  · unfold Memory.get_relevant
    simp only [List.length_map, List.length_take]
    exact min_le_left _ _
  · unfold Memory.get_relevant
    simp only
    rw [List.pairwise_map]
    have hsorted : List.Pairwise negKeyLe
        ((List.insertionSort negKeyLe (scoredEntries m query)).take limit) :=
      List.Pairwise.sublist (List.take_sublist _ _)
        (List.sorted_insertionSort negKeyLe (scoredEntries m query))
    refine List.Pairwise.imp_of_mem ?_ hsorted
    intro p q hp hq hr
    have hpS := mem_scoredEntries
      ((List.mem_insertionSort negKeyLe).1 (List.mem_of_mem_take hp))
    have hqS := mem_scoredEntries
      ((List.mem_insertionSort negKeyLe).1 (List.mem_of_mem_take hq))
    have : q.1 ≤ p.1 := by
      have := neg_le_neg_iff.1 hr
      exact this
    rw [hpS.2.2, hqS.2.2] at this
    exact this
  · have hcomm := List.map_insertionSort tagNegLe negKeyLe Prod.snd
      ((scoredEntries m query).enum) (fun x _ y _ => Iff.rfl)
    have henum : ((scoredEntries m query).enum).map Prod.snd = scoredEntries m query :=
      List.enum_map_snd _
    calc ((List.insertionSort tagNegLe ((scoredEntries m query).enum)).take limit).map
            (fun p => p.2.2)
        = (((List.insertionSort tagNegLe ((scoredEntries m query).enum)).take limit).map
            Prod.snd).map Prod.snd := by rw [List.map_map]; rfl
      _ = (((List.insertionSort tagNegLe ((scoredEntries m query).enum)).map
            Prod.snd).take limit).map Prod.snd := by rw [List.map_take]
      _ = ((List.insertionSort negKeyLe (scoredEntries m query)).take limit).map Prod.snd := by
            rw [hcomm, henum]
      _ = m.get_relevant query limit := rfl
  · have henum : ((scoredEntries m query).enum).Pairwise
        (fun x y : Nat × (ℚ × MemoryItem) => x.1 < y.1) :=
      pairwise_fst_lt_enumFrom (scoredEntries m query) 0
    have htie : ((scoredEntries m query).enum).Pairwise
        (fun x y : Nat × (ℚ × MemoryItem) => -x.2.1 = -y.2.1 → x.1 < y.1) :=
      henum.imp (fun h => fun _ => h)
    exact pairwise_tie_insertionSort (fun p : Nat × (ℚ × MemoryItem) => -p.2.1) Prod.fst
      tagNegLe (fun _ _ => Iff.rfl) _ htie

/-- A matching entry whose importance is `0`, so its final score
`count * importance` is `0`. -/
def zeroImpItem : MemoryItem :=
  { content := "hello world", timestamp := ⟨2024,1,1,0,0,0,0⟩, type := "context",
    metadata := [], importance := 0 }

/-- A memory holding only the zero-importance matching entry. -/
def zeroImpMem : Memory :=
  { short_term := [zeroImpItem], long_term := [], short_term_limit := 50,
    long_term_limit := 200 }

/-- C4 counterexample: `get_relevant` returns the entry whose score
`count * importance` is `0` — the code only drops entries with zero match
count, so a zero-score entry is not dropped, contrary to the claim. -/
theorem get_relevant_zero_score_kept :
    zeroImpMem.get_relevant "hello" 5 = [zeroImpItem] ∧
    (matchCount (pyLower "hello") zeroImpItem.content : ℚ) * zeroImpItem.importance = 0 := by
  constructor
  · rfl
  · have h1 : matchCount (pyLower "hello") zeroImpItem.content = 1 := rfl
    rw [h1]
    simp [zeroImpItem]

/-- C4 witness: on the concrete one-entry store, `get_relevant` returns an
entry, every returned entry has positive match count, and the length bound
holds. -/
theorem get_relevant_amended_witness :
    zeroImpItem ∈ zeroImpMem.get_relevant "hello" 5 ∧
    (zeroImpItem ∈ zeroImpMem.short_term ++ zeroImpMem.long_term ∧
      0 < matchCount (pyLower "hello") zeroImpItem.content) ∧
    (zeroImpMem.get_relevant "hello" 5).length ≤ 5 := by
  have hres : zeroImpMem.get_relevant "hello" 5 = [zeroImpItem] := rfl
  have hmem : zeroImpItem ∈ zeroImpMem.get_relevant "hello" 5 := by
    rw [hres]; exact List.mem_cons_self _ _
  exact ⟨hmem, (get_relevant_amended zeroImpMem "hello" 5).1 zeroImpItem hmem,
    (get_relevant_amended zeroImpMem "hello" 5).2.1⟩

/-! ### C9: persistence round trip -/

lemma loadItem_save (it : MemoryItem) (h : it.timestamp.Valid) :
    loadItem
      { content := it.content, timestamp := it.timestamp.isoformat, type := it.type,
        metadata := some it.metadata, importance := some it.importance } = some it := by
  unfold loadItem
  simp only [fromisoformat_isoformat it.timestamp h, Option.map_some]
  rfl

lemma loadEntries_map_save : ∀ (l : List MemoryItem), (∀ it ∈ l, it.timestamp.Valid) →
    loadEntries (l.map fun item =>
      ({ content := item.content, timestamp := item.timestamp.isoformat, type := item.type,
         metadata := some item.metadata, importance := some item.importance } : SavedItem))
      = some l := by
  intro l
  induction l with
  | nil => intro _; rfl
  | cons x xs ih =>
    intro h
    simp only [List.map_cons, loadEntries]
    rw [loadItem_save x (h x (List.mem_cons_self x xs)),
      ih (fun it hit => h it (List.mem_cons_of_mem x hit))]
    rfl

/-- C9: saving the long-term store and constructing a new `Memory` from the
persisted document round-trips every long-term entry exactly — content,
type, importance, metadata and timestamp are all preserved, in order. -/
theorem persist_roundtrip (m : Memory) (h : ∀ it ∈ m.long_term, it.timestamp.Valid) :
    Memory.ofPersisted (Memory.save m)
      = some { short_term := [], long_term := m.long_term,
               short_term_limit := 50, long_term_limit := 200 } := by
  unfold Memory.ofPersisted Memory.save
  rw [loadEntries_map_save m.long_term h]
  rfl

/-- A concrete long-term store with metadata, a fractional-second
timestamp and a whole-second timestamp. -/
def demoMemPersist : Memory :=
  { short_term := [],
    long_term := [{ content := "alpha", timestamp := ⟨2024,3,15,10,30,59,123456⟩,
                    type := "observation", metadata := [("k", Json.str "v")],
                    importance := 7/10 },
                  { content := "beta", timestamp := ⟨2023,12,31,23,59,59,0⟩,
                    type := "task", metadata := [], importance := 1/2 }],
    short_term_limit := 50, long_term_limit := 200 }

/-- C9 witness: the concrete store round-trips exactly. -/
theorem persist_roundtrip_witness :
    (∀ it ∈ demoMemPersist.long_term, it.timestamp.Valid) ∧
    Memory.ofPersisted (Memory.save demoMemPersist)
      = some { short_term := [], long_term := demoMemPersist.long_term,
               short_term_limit := 50, long_term_limit := 200 } :=
  ⟨by decide, persist_roundtrip _ (by decide)⟩

/-! ### Python `json.loads`

A character-level model of the stdlib parser over the full JSON grammar
that `json.loads` accepts with its default settings: objects, arrays,
strings with escape sequences (raw control characters rejected, as
Python's strict mode does), strict numbers (`0`-or-nonzero-leading
integer part, optional fraction and exponent), `true`/`false`/`null`,
and the Python extensions `NaN`/`Infinity`/`-Infinity`.  The non-finite
extensions denote floats that `ℚ` cannot carry and are parsed as
`Json.null`; the modelled code only ever observes decode success and
objecthood/keys, never those values.  Trailing non-whitespace is
rejected, matching the stdlib's extra-data error. -/

/-- Skip JSON whitespace. -/
def skipWs : List Char → List Char
  | [] => []
  | c :: rest => if c = ' ' ∨ c = '\n' ∨ c = '\t' ∨ c = '\r' then skipWs rest else c :: rest

/-- The value of one hexadecimal digit. -/
def hexVal (c : Char) : Option Nat :=
  if '0' ≤ c ∧ c ≤ '9' then some (c.toNat - 48)
  else if 'a' ≤ c ∧ c ≤ 'f' then some (c.toNat - 87)
  else if 'A' ≤ c ∧ c ≤ 'F' then some (c.toNat - 55)
  else none

/-- Scan a quoted string body after the opening quote: escape sequences
are decoded, raw control characters are rejected (Python `strict=True`). -/
def parseStrBody : List Char → List Char → Option (String × List Char)
  | [], _ => none
  | c :: rest, acc =>
    if c = '"' then some (⟨acc.reverse⟩, rest)
    else if c = '\\' then
      match rest with
      | [] => none
      | e :: rest2 =>
        if e = '"' then parseStrBody rest2 ('"' :: acc)
        else if e = '\\' then parseStrBody rest2 ('\\' :: acc)
        else if e = '/' then parseStrBody rest2 ('/' :: acc)
        else if e = 'b' then parseStrBody rest2 ('\x08' :: acc)
        else if e = 'f' then parseStrBody rest2 ('\x0c' :: acc)
        else if e = 'n' then parseStrBody rest2 ('\n' :: acc)
        else if e = 'r' then parseStrBody rest2 ('\r' :: acc)
        else if e = 't' then parseStrBody rest2 ('\t' :: acc)
        else if e = 'u' then
          match rest2 with
          | h1 :: h2 :: h3 :: h4 :: rest3 =>
            match hexVal h1, hexVal h2, hexVal h3, hexVal h4 with
            | some a, some b, some c2, some d =>
              parseStrBody rest3 (Char.ofNat (((a * 16 + b) * 16 + c2) * 16 + d) :: acc)
            | _, _, _, _ => none
          | _ => none
        else none
    else if c.toNat < 32 then none
    else parseStrBody rest (c :: acc)

/-- Longest digit run at the front. -/
def spanDigits : List Char → (List Char × List Char)
  | [] => ([], [])
  | c :: rest =>
    if c.isDigit then
      let p := spanDigits rest
      (c :: p.1, p.2)
    else ([], c :: rest)

/-- Fraction and exponent after the integer part of a number, and the
resulting rational value (JSON decimal literals are exact decimals). -/
def parseNumAfterInt (neg : Bool) (ip : List Char) (l : List Char) :
    Option (Json × List Char) :=
  let fr : Option (List Char × List Char) :=
    match l with
    | '.' :: r =>
      let p := spanDigits r
      if p.1.isEmpty then none else some (p.1, p.2)
    | _ => some ([], l)
  match fr with
  | none => none
  | some (fp, l2) =>
    let ex : Option (Bool × List Char × List Char) :=
      match l2 with
      | 'e' :: r | 'E' :: r =>
        match r with
        | '+' :: r2 =>
          let p := spanDigits r2
          if p.1.isEmpty then none else some (false, p.1, p.2)
        | '-' :: r2 =>
          let p := spanDigits r2
          if p.1.isEmpty then none else some (true, p.1, p.2)
        | _ =>
          let p := spanDigits r
          if p.1.isEmpty then none else some (false, p.1, p.2)
      | _ => some (false, [], l2)
    match ex with
    | none => none
    | some (eneg, ed, l3) =>
      let mant : ℚ := (digitsVal ip : ℚ) + (digitsVal fp : ℚ) / (10 : ℚ) ^ fp.length
      let mag : ℚ :=
        if eneg then mant / (10 : ℚ) ^ digitsVal ed else mant * (10 : ℚ) ^ digitsVal ed
      some (Json.num (if neg then -mag else mag), l3)

/-- A strict JSON number: optional `-`, then `0` or a nonzero-leading
digit run, then optional fraction and exponent. -/
def parseNumber (l : List Char) : Option (Json × List Char) :=
  match l with
  | '-' :: rest =>
    match rest with
    | '0' :: r2 => parseNumAfterInt true ['0'] r2
    | c :: _ =>
      if c.isDigit then
        let p := spanDigits rest
        parseNumAfterInt true p.1 p.2
      else none
    | [] => none
  | '0' :: r2 => parseNumAfterInt false ['0'] r2
  | c :: _ =>
    if c.isDigit then
      let p := spanDigits l
      parseNumAfterInt false p.1 p.2
    else none
  | [] => none

mutual

/-- Parse one JSON value (fuel bounds the call depth; each call consumes
at least one character before recursing, so the generous budget in
`jsonLoads` never runs out on any input). -/
def parseJValue : Nat → List Char → Option (Json × List Char)
  | 0, _ => none
  | fuel+1, l =>
    match skipWs l with
    | [] => none
    | '\x7b' :: rest =>
      match skipWs rest with
      | '\x7d' :: r2 => some (Json.obj [], r2)
      | r2 => (parseJMembers fuel r2).map fun p => (Json.obj p.1, p.2)
    | '[' :: rest =>
      match skipWs rest with
      | ']' :: r2 => some (Json.arr [], r2)
      | r2 => (parseJElems fuel r2).map fun p => (Json.arr p.1, p.2)
    | '"' :: rest => (parseStrBody rest []).map fun p => (Json.str p.1, p.2)
    | 't' :: 'r' :: 'u' :: 'e' :: rest => some (Json.bool true, rest)
    | 'f' :: 'a' :: 'l' :: 's' :: 'e' :: rest => some (Json.bool false, rest)
    | 'n' :: 'u' :: 'l' :: 'l' :: rest => some (Json.null, rest)
    | 'N' :: 'a' :: 'N' :: rest => some (Json.null, rest)
    | 'I' :: 'n' :: 'f' :: 'i' :: 'n' :: 'i' :: 't' :: 'y' :: rest => some (Json.null, rest)
    | '-' :: 'I' :: 'n' :: 'f' :: 'i' :: 'n' :: 'i' :: 't' :: 'y' :: rest =>
      some (Json.null, rest)
    | l2 => parseNumber l2

/-- Parse the members of a non-empty object, after the opening brace. -/
def parseJMembers : Nat → List Char → Option (List (String × Json) × List Char)
  | 0, _ => none
  | fuel+1, l =>
    match skipWs l with
    | '"' :: rest =>
      match parseStrBody rest [] with
      | none => none
      | some (k, r1) =>
        match skipWs r1 with
        | ':' :: r2 =>
          match parseJValue fuel r2 with
          | none => none
          | some (v, r3) =>
            match skipWs r3 with
            | ',' :: r4 => (parseJMembers fuel r4).map fun p => ((k, v) :: p.1, p.2)
            | '\x7d' :: r4 => some ([(k, v)], r4)
            | _ => none
        | _ => none
    | _ => none

/-- Parse the elements of a non-empty array, after the opening bracket. -/
def parseJElems : Nat → List Char → Option (List Json × List Char)
  | 0, _ => none
  | fuel+1, l =>
    match parseJValue fuel l with
    | none => none
    | some (v, r) =>
      match skipWs r with
      | ',' :: r2 => (parseJElems fuel r2).map fun p => (v :: p.1, p.2)
      | ']' :: r2 => some ([v], r2)
      | _ => none

end

/-- `json.loads`: parse one value and reject trailing non-whitespace. -/
def jsonLoads (s : String) : Option Json :=
  match parseJValue (2 * s.data.length + 2) s.data with
  | some (v, r) => if (skipWs r).isEmpty then some v else none
  | none => none

/-! ### Worker agents (`src/core/agent.py`, `src/agents/code.py`)

The LLM backend and the sandboxed tool are effects outside the program;
they enter the model as oracle arguments (the backend response — or the
exception it raises — and the tool executor).  Everything else follows the
Python control flow line by line. -/

/-- Python exceptions crossing the modelled boundaries. -/
inductive PyErr where
  | jsonDecode : PyErr
  | typeErr : PyErr
  | valueErr (msg : String) : PyErr
  | nameErr : PyErr
  | backend (msg : String) : PyErr
deriving DecidableEq

/-- The `function` dict of a dumped tool call (`.get` keys are optional). -/
structure ToolCallFunction where
  name : Option String
  arguments : Option String
deriving DecidableEq

/-- A dumped tool call dict. -/
structure ToolCall where
  id : Option String
  function : Option ToolCallFunction
deriving DecidableEq

/-- The `Message` dataclass of `src/core/agent.py`. -/
structure Message where
  role : String
  content : String
  name : Option String := none
  tool_calls : Option (List ToolCall) := none
  tool_call_id : Option String := none

/-- The `ToolResult` dataclass of `src/tools/base.py`. -/
structure ToolResult where
  success : Bool
  output : String
  error : Option String := none

/-- `str(result)` for a `ToolResult` (its `__str__`). -/
def ToolResult.strRepr (r : ToolResult) : String :=
  if r.success then r.output else "Error: " ++ (r.error.getD "None")

/-- The `AgentResponse` dataclass; `data : Any` becomes a type parameter
(`tool_calls`, never set on the modelled paths, is omitted). -/
structure AgentResponse (δ : Type) where
  success : Bool
  content : String
  data : Option δ := none
  error : Option String := none

/-- An OpenAI chat completion message (content and `tool_calls` nullable). -/
structure LLMMessage where
  content : Option String
  tool_calls : Option (List ToolCall)

/-- Python `x or y` for an optional string (`None` and `""` are falsy). -/
def pyStrOr (o : Option String) (d : String) : String :=
  match o with
  | none => d
  | some s => if s = "" then d else s

/-- Python truthiness of an optional list (`None` and `[]` are falsy). -/
def optListTruthy {α : Type} : Option (List α) → Bool
  | none => false
  | some [] => false
  | some (_ :: _) => true

/-- `CodeAgent.think`: require a configured client, append the user
message, call the backend (whose exception propagates), record the
assistant message, and report the plan string. -/
def codeThink (cfg : Option Unit) (llm : Except PyErr LLMMessage) (msgs : List Message)
    (task : String) : Except PyErr (List Message × String) :=
  match cfg with
  | none => .error (.valueErr "请先调用 init_config() 初始化配置")
  | some _ =>
    let msgs1 := msgs ++ [{ role := "user", content := task }]
    match llm with
    | .error e => .error e
    | .ok message =>
      let msgs2 := msgs1 ++ [{ role := "assistant", content := pyStrOr message.content "",
                               tool_calls := if optListTruthy message.tool_calls then
                                 message.tool_calls else none }]
      if optListTruthy message.tool_calls then
        .ok (msgs2, "需要执行代码: " ++ toString (message.tool_calls.getD []).length
          ++ " 个工具调用")
      else
        .ok (msgs2, pyStrOr message.content "无需执行代码")

/-- Keyword binding of `**func_args` against
`ExecutePythonTool.execute(self, code: str)`: the splice binds exactly
when the dict's key set is the one required parameter name `code` (no
defaults, no `**kwargs` in the signature; the `str` annotation is not
enforced at runtime).  A dict with any other key set — empty, missing
`code`, or with extra keys — makes the call raise `TypeError`.  Key-set
equality with a singleton is: nonempty and every key equal. -/
def bindsExecuteKw (kvs : List (String × Json)) : Bool :=
  !kvs.isEmpty && kvs.all fun p => p.1 == "code"

/-- The tool executor oracle: the behaviour of
`await self.execute_tool.execute(**func_args)` after the keyword splice
bound.  It may itself raise (e.g. the `len(code)` in the logging prologue
of `ExecutePythonTool.execute` precedes its `try/except` and raises
`TypeError` on a non-sized `code` value); when the body runs, its
`try/except` returns a `ToolResult` either way. -/
def ToolExec : Type := List (String × Json) → Except PyErr ToolResult

/-- The tool-call loop of `CodeAgent.act`: `json.loads` runs before any
check and its failure propagates out of the whole loop; a decoded
non-object, or an object whose keys do not bind the tool's signature,
makes the `**` call raise `TypeError`; an exception from the tool itself
propagates too; calls whose name is not `execute_python` are skipped. -/
def codeActLoop (exec : ToolExec) : List ToolCall → List ToolResult → List Message →
    Except PyErr (List ToolResult × List Message)
  | [], results, msgs => .ok (results, msgs)
  | tc :: rest, results, msgs =>
    let func := tc.function.getD { name := none, arguments := none }
    match jsonLoads (func.arguments.getD "\x7b\x7d") with
    | none => .error .jsonDecode
    | some args =>
      if func.name = some "execute_python" then
        match args with
        | Json.obj kvs =>
          if bindsExecuteKw kvs then
            match exec kvs with
            | .error e => .error e
            | .ok result =>
              codeActLoop exec rest (results ++ [result])
                (msgs ++ [{ role := "tool", content := result.strRepr,
                            tool_call_id := tc.id }])
          else .error .typeErr
        | _ => .error .typeErr
      else
        codeActLoop exec rest results msgs

/-- `CodeAgent.act`: no messages is a failed response; a last message
without tool calls is returned as content; otherwise run the tool-call
loop and aggregate (`all_success`, joined outputs). -/
def codeAct (exec : ToolExec) (msgs : List Message) :
    Except PyErr (List Message × AgentResponse (List ToolResult)) :=
  match msgs.getLast? with
  | none => .ok (msgs, { success := false, content := "", error := some "没有待执行的操作" })
  | some last =>
    if optListTruthy last.tool_calls then
      match codeActLoop exec (last.tool_calls.getD []) [] msgs with
      | .error e => .error e
      | .ok (results, msgs2) =>
        .ok (msgs2, { success := results.all fun r => r.success,
                      content := String.intercalate "\n\n" (results.map ToolResult.strRepr),
                      data := some results })
    else
      .ok (msgs, { success := true, content := last.content })

/-- `CodeAgent.observe`: failed results are summarized locally; successful
ones go back to the backend (whose exception propagates). -/
def codeObserve (cfg : Option Unit) (llm : Except PyErr LLMMessage) (msgs : List Message)
    (result : AgentResponse (List ToolResult)) : Except PyErr (List Message × String) :=
  match cfg with
  | none => .error (.valueErr "请先调用 init_config() 初始化配置")
  | some _ =>
    if result.success then
      let msgs1 := msgs ++ [{ role := "user",
                              content := "请简要总结执行结果，说明代码做了什么。执行输出:\n"
                                ++ result.content }]
      match llm with
      | .error e => .error e
      | .ok message =>
        let summary := (message.content).getD ""
        .ok (msgs1 ++ [{ role := "assistant", content := summary }], summary)
    else
      .ok (msgs, "执行失败: " ++ (result.error).getD "None")

/-- `CodeAgent.run`: clear the conversation, then think → act, and observe
only on success; every exception of the three phases propagates out. -/
def codeRun (cfg : Option Unit) (llmThink llmObserve : Except PyErr LLMMessage)
    (exec : ToolExec) (task : String) : Except PyErr (AgentResponse (List ToolResult)) := do
  let (msgs1, _plan) ← codeThink cfg llmThink [] task
  let (msgs2, result) ← codeAct exec msgs1
  if result.success then
    let (_msgs3, observation) ← codeObserve cfg llmObserve msgs2 result
    pure { result with content := result.content ++ "\n\n📝 总结: " ++ observation }
  else
    pure result

/-! ### C2 / C3: exception behaviour of the worker agent -/

/-- A tool call the act loop passes through without raising: its argument
payload decodes, and when the call is an `execute_python` call the
decoded value is an object whose keyword set binds
`execute(self, code: str)` — so `json.loads` and the `**` splice both go
through. -/
def RunnableCall (tc : ToolCall) : Prop :=
  ∃ v, jsonLoads (((tc.function.getD { name := none, arguments := none }).arguments).getD
      "\x7b\x7d") = some v ∧
    ((tc.function.getD { name := none, arguments := none }).name = some "execute_python" →
      ∃ kvs, v = Json.obj kvs ∧ bindsExecuteKw kvs = true)

lemma bind_ok_eq {ε α β : Type} (a : α) (f : α → Except ε β) :
    (Except.ok a : Except ε α) >>= f = f a := rfl

lemma codeActLoop_ok (exec : ToolExec) (hexec : ∀ kvs, ∃ r, exec kvs = .ok r) :
    ∀ (tcs : List ToolCall),
    (∀ tc ∈ tcs, RunnableCall tc) → ∀ (results : List ToolResult) (msgs : List Message),
    ∃ out, codeActLoop exec tcs results msgs = .ok out := by
  intro tcs
  induction tcs with
  | nil => intro _ results msgs; exact ⟨(results, msgs), rfl⟩
  | cons tc rest ih =>
    intro h results msgs
    obtain ⟨v, hv, hobj⟩ := h tc (List.mem_cons_self _ _)
    simp only [codeActLoop]
    rw [hv]
    dsimp only
    by_cases hname :
        (tc.function.getD { name := none, arguments := none }).name = some "execute_python"
    · rw [if_pos hname]
      obtain ⟨kvs, rfl, hbind⟩ := hobj hname
      dsimp only
      rw [if_pos hbind]
      obtain ⟨r, hr⟩ := hexec kvs
      rw [hr]
      exact ih (fun t ht => h t (List.mem_cons_of_mem _ ht)) _ _
    · rw [if_neg hname]
      exact ih (fun t ht => h t (List.mem_cons_of_mem _ ht)) _ _

lemma codeAct_ok_of_runnable (exec : ToolExec) (hexec : ∀ kvs, ∃ r, exec kvs = .ok r)
    (msgs : List Message) (last : Message) (hlast : msgs.getLast? = some last)
    (h : ∀ tc ∈ last.tool_calls.getD [], RunnableCall tc) :
    ∃ out, codeAct exec msgs = .ok out := by
  unfold codeAct
  rw [hlast]
  dsimp only
  by_cases htc : optListTruthy last.tool_calls = true
  · rw [if_pos htc]
    obtain ⟨out, hout⟩ := codeActLoop_ok exec hexec _ h [] msgs
    rw [hout]
    exact ⟨_, rfl⟩
  · rw [if_neg htc]
    exact ⟨_, rfl⟩

/-- The assistant message recorded by a successful `think`. -/
def thinkAssistantMsg (msgT : LLMMessage) : Message :=
  { role := "assistant", content := pyStrOr msgT.content "",
    tool_calls := if optListTruthy msgT.tool_calls then msgT.tool_calls else none }

lemma codeThink_ok (msgT : LLMMessage) (task : String) :
    codeThink (some ()) (.ok msgT) [] task
      = .ok ([{ role := "user", content := task }, thinkAssistantMsg msgT],
          if optListTruthy msgT.tool_calls then
            "需要执行代码: " ++ toString (msgT.tool_calls.getD []).length ++ " 个工具调用"
          else pyStrOr msgT.content "无需执行代码") := by
  unfold codeThink thinkAssistantMsg
  dsimp only
  by_cases htc : optListTruthy msgT.tool_calls = true
  · simp [htc]
  · simp [htc]

/-- A tool call whose `execute_python` arguments decode to the empty
object, which fails to bind `execute(self, code: str)`. -/
def emptyArgsCall : ToolCall :=
  { id := some "call_3",
    function := some { name := some "execute_python", arguments := some "\x7b\x7d" } }

/-- C2 (amended): `run(task)` does raise — a missing configuration raises
`ValueError` before anything happens; a backend exception from the think
phase propagates unchanged out of `run`; and an argument object that does
not bind the tool's keyword signature (here: the empty object, which is
missing `code`) raises `TypeError` out of `run`.  Only when the backend
calls return, every tool invocation is runnable (its payload decodes, and
binds the signature where it is `**`-spliced), and the tool call itself
returns normally, does `run` return an `AgentResponse` instead of
raising, with tool failures contained in the result. -/
theorem code_run_exception_behaviour :
    (∀ (e : PyErr) (llmO : Except PyErr LLMMessage) (exec : ToolExec) (task : String),
      codeRun (some ()) (.error e) llmO exec task = .error e) ∧
    (∀ (llmT llmO : Except PyErr LLMMessage) (exec : ToolExec) (task : String),
      codeRun none llmT llmO exec task
        = .error (.valueErr "请先调用 init_config() 初始化配置")) ∧
    (∀ (exec : ToolExec) (msgO : LLMMessage) (task : String),
      codeRun (some ()) (.ok { content := some "", tool_calls := some [emptyArgsCall] })
        (.ok msgO) exec task = .error .typeErr) ∧
    (∀ (msgT msgO : LLMMessage) (exec : ToolExec) (task : String),
      (∀ kvs, ∃ r, exec kvs = .ok r) →
      (∀ tc ∈ msgT.tool_calls.getD [], RunnableCall tc) →
      ∃ r, codeRun (some ()) (.ok msgT) (.ok msgO) exec task = .ok r) := by
  refine ⟨fun e llmO exec task => rfl, fun llmT llmO exec task => rfl,
    fun exec msgO task => rfl, ?_⟩
  intro msgT msgO exec task hexec h
  have hlast : ([{ role := "user", content := task }, thinkAssistantMsg msgT] :
      List Message).getLast? = some (thinkAssistantMsg msgT) := rfl
  have hdec : ∀ tc ∈ (thinkAssistantMsg msgT).tool_calls.getD [], RunnableCall tc := by
    unfold thinkAssistantMsg
    dsimp only
    split_ifs with htc
    · exact h
    · intro tc ht
      simp at ht
  obtain ⟨⟨msgs2, result⟩, hact⟩ :=
    codeAct_ok_of_runnable exec hexec
      [{ role := "user", content := task }, thinkAssistantMsg msgT] _ hlast hdec
  unfold codeRun
  rw [codeThink_ok, bind_ok_eq]
  dsimp only
  rw [hact, bind_ok_eq]
  dsimp only
  by_cases hs : result.success = true
  · rw [if_pos hs]
    unfold codeObserve
    rw [if_pos hs]
    exact ⟨_, rfl⟩
  · rw [if_neg hs]
    exact ⟨_, rfl⟩

/-- A tool call whose argument payload is not valid JSON. -/
def malformedCall : ToolCall :=
  { id := some "call_1",
    function := some { name := some "execute_python", arguments := some "not json" } }

/-- A runnable tool call: its payload decodes to an object binding
exactly the keyword `code`. -/
def validCall : ToolCall :=
  { id := some "call_2",
    function := some { name := some "execute_python",
                       arguments := some "\x7b\"code\": \"print(1)\"\x7d" } }

/-- A tool oracle that always returns a successful result. -/
def trivialExec : ToolExec := fun _ => .ok { success := true, output := "ok" }

/-- C2 counterexample: with a configured client and a successful backend
call whose tool invocation carries an undecodable argument payload,
`run(task)` raises the decode error out of the call boundary instead of
returning a failed `AgentResult`. -/
theorem code_run_raises_counterexample :
    codeRun (some ()) (.ok { content := some "", tool_calls := some [malformedCall] })
      (.ok { content := some "done", tool_calls := none }) trivialExec "task"
      = .error .jsonDecode := rfl

/-- C2 witness: backend propagation at a concrete exception, the
`TypeError` of a non-binding object payload at a concrete executor, and
the containment conjunct at a concrete runnable call. -/
theorem code_run_exception_behaviour_witness :
    codeRun (some ()) (.error (.backend "boom"))
      (.ok { content := some "done", tool_calls := none }) trivialExec "t"
      = .error (.backend "boom") ∧
    codeRun (some ()) (.ok { content := some "", tool_calls := some [emptyArgsCall] })
      (.ok { content := some "done", tool_calls := none }) trivialExec "t"
      = .error .typeErr ∧
    (∀ kvs, ∃ r, trivialExec kvs = .ok r) ∧
    (∀ tc ∈ (some [validCall] : Option (List ToolCall)).getD [], RunnableCall tc) ∧
    (∃ r, codeRun (some ())
      (.ok { content := some "", tool_calls := some [validCall] })
      (.ok { content := some "done", tool_calls := none }) trivialExec "t" = .ok r) :=
  have hexec : ∀ kvs, ∃ r, trivialExec kvs = .ok r :=
    fun _ => ⟨{ success := true, output := "ok" }, rfl⟩
  have hdec : ∀ tc ∈ (some [validCall] : Option (List ToolCall)).getD [], RunnableCall tc :=
    fun tc htc => by
      have he : tc = validCall := by simpa using htc
      subst he
      exact ⟨Json.obj [("code", Json.str "print(1)")], rfl,
        fun _ => ⟨[("code", Json.str "print(1)")], rfl, rfl⟩⟩
  ⟨code_run_exception_behaviour.1 (.backend "boom") _ trivialExec "t",
   code_run_exception_behaviour.2.2.1 trivialExec { content := some "done", tool_calls := none }
     "t",
   hexec,
   hdec,
   code_run_exception_behaviour.2.2.2 { content := some "", tool_calls := some [validCall] }
     { content := some "done", tool_calls := none } trivialExec "t" hexec hdec⟩

/-! ### C3 -/

lemma codeActLoop_error_on_malformed (exec : ToolExec)
    (hexec : ∀ kvs, ∃ r, exec kvs = .ok r) (mal : ToolCall) (rest : List ToolCall)
    (hmal : jsonLoads (((mal.function.getD { name := none, arguments := none }).arguments).getD
      "\x7b\x7d") = none) :
    ∀ (pre : List ToolCall), (∀ tc ∈ pre, RunnableCall tc) →
    ∀ (results : List ToolResult) (msgs : List Message),
      codeActLoop exec (pre ++ mal :: rest) results msgs = .error .jsonDecode := by
  intro pre
  induction pre with
  | nil =>
    intro _ results msgs
    simp only [List.nil_append, codeActLoop]
    rw [hmal]
  | cons tc pre ih =>
    intro h results msgs
    obtain ⟨v, hv, hobj⟩ := h tc (List.mem_cons_self _ _)
    simp only [List.cons_append, codeActLoop]
    rw [hv]
    dsimp only
    by_cases hname :
        (tc.function.getD { name := none, arguments := none }).name = some "execute_python"
    · rw [if_pos hname]
      obtain ⟨kvs, rfl, hbind⟩ := hobj hname
      dsimp only
      rw [if_pos hbind]
      obtain ⟨r, hr⟩ := hexec kvs
      rw [hr]
      exact ih (fun t ht => h t (List.mem_cons_of_mem _ ht)) _ _
    · rw [if_neg hname]
      exact ih (fun t ht => h t (List.mem_cons_of_mem _ ht)) _ _

/-- C3 (amended): during the Act phase, an undecodable argument payload is
not contained to its invocation: `json.loads` raises out of the whole
loop, so `act` raises instead of returning — for any prefix of runnable
invocations before the malformed one (whose tool calls return normally)
and regardless of the invocations after it, which therefore never
execute. -/
theorem code_act_aborts_on_malformed (exec : ToolExec)
    (hexec : ∀ kvs, ∃ r, exec kvs = .ok r) (msgs : List Message) (last : Message)
    (pre rest : List ToolCall) (mal : ToolCall)
    (hlast : msgs.getLast? = some last)
    (htc : last.tool_calls = some (pre ++ mal :: rest))
    (hpre : ∀ tc ∈ pre, RunnableCall tc)
    (hmal : jsonLoads (((mal.function.getD { name := none, arguments := none }).arguments).getD
      "\x7b\x7d") = none) :
    codeAct exec msgs = .error .jsonDecode := by
  unfold codeAct
  rw [hlast]
  dsimp only
  rw [htc]
  have htruthy : optListTruthy (some (pre ++ mal :: rest)) = true := by
    cases pre <;> rfl
  rw [if_pos htruthy]
  rw [show (some (pre ++ mal :: rest) : Option (List ToolCall)).getD [] = pre ++ mal :: rest
    from rfl]
  rw [codeActLoop_error_on_malformed exec hexec mal rest hmal pre hpre [] msgs]

/-- C3 counterexample: an Act phase with a malformed first invocation and
a runnable second one raises the decode error — no per-invocation failed
result, and the second invocation never executes. -/
theorem code_act_malformed_counterexample :
    codeAct trivialExec
      [{ role := "assistant", content := "", tool_calls := some [malformedCall, validCall] }]
      = .error .jsonDecode := rfl

/-- C3 witness: the amended abort behaviour at a concrete message whose
tool calls are a runnable invocation followed by a malformed one, with
the always-returning tool oracle. -/
theorem code_act_aborts_on_malformed_witness :
    (∀ kvs, ∃ r, trivialExec kvs = .ok r) ∧
    codeAct trivialExec
      [{ role := "assistant", content := "", tool_calls := some [validCall, malformedCall] }]
      = .error .jsonDecode :=
  have hexec : ∀ kvs, ∃ r, trivialExec kvs = .ok r :=
    fun _ => ⟨{ success := true, output := "ok" }, rfl⟩
  ⟨hexec,
   code_act_aborts_on_malformed trivialExec hexec _ _ [validCall] [] malformedCall rfl rfl
    (fun tc htc => by
      have he : tc = validCall := by simpa using htc
      subst he
      exact ⟨Json.obj [("code", Json.str "print(1)")], rfl,
        fun _ => ⟨[("code", Json.str "print(1)")], rfl, rfl⟩⟩)
    rfl⟩

/-! ### Orchestrator (`src/core/orchestrator.py`)

The orchestrator's think and observe phases call the backend; their
observable products (the plan, each iteration's outcome, the summary
text) are oracle arguments.  `act` and the `run` loop follow the Python
control flow; message-history bookkeeping, which no claim mentions, is
elided from `act` and `observe`. -/

/-- A subtask dict built by `Orchestrator.think` from an `assign_task`
tool call. -/
structure Subtask where
  id : Option String
  agent : String
  task : String
  reason : String

/-- The `TaskPlan` dataclass. -/
structure TaskPlan where
  original_task : String
  subtasks : List Subtask
  current_step : Nat := 0

/-- A registered worker: its `run` either raises or returns a response. -/
def AgentRun : Type := String → Except PyErr (AgentResponse (List ToolResult))

/-- One entry of the `results` list in `Orchestrator.act` (`output` only
on normal returns, `error` only on failures — mirroring the dict keys). -/
structure ResultEntry where
  agent : String
  task : String
  success : Bool
  output : Option String := none
  error : Option String := none

/-- Python `str(e)` for the modelled exceptions. -/
def pyErrStr : PyErr → String
  | .jsonDecode => "Expecting value"
  | .typeErr => "TypeError"
  | .valueErr m => m
  | .nameErr => "NameError"
  | .backend m => m

/-- One iteration of the subtask loop of `Orchestrator.act`: an
unregistered role records a failure entry; a raised exception from
`agent.run` is caught and records a failure entry; otherwise the worker's
result is recorded. -/
def orchSubtaskEntry (agents : String → Option AgentRun) (st : Subtask) : ResultEntry :=
  match agents st.agent with
  | some runA =>
    match runA st.task with
    | .ok r => { agent := st.agent, task := st.task, success := r.success,
                 output := some r.content }
    | .error e => { agent := st.agent, task := st.task, success := false,
                    error := some (pyErrStr e) }
  | none => { agent := st.agent, task := st.task, success := false,
              error := some ("未找到智能体 " ++ st.agent) }

/-- The `"✅"` / `"❌"` status marker. -/
def statusMark (b : Bool) : String := if b then "✅" else "❌"

/-- One block of the aggregate report. -/
def orchActOutput (r : ResultEntry) : String :=
  statusMark r.success ++ " [" ++ r.agent ++ "] " ++ r.task ++ "\n"
    ++ (r.output.getD (r.error.getD ""))

/-- `Orchestrator.act`: without a plan (or with an empty subtask list) the
last assistant message is returned, or a failure if there are no messages;
otherwise every subtask is executed in order and the entries aggregated
(`success` = AND over entries, report blocks joined). -/
def orchAct (plan : Option TaskPlan) (msgs : List Message)
    (agents : String → Option AgentRun) : AgentResponse (List ResultEntry) :=
  match plan with
  | none =>
    match msgs.getLast? with
    | some lastM => { success := true, content := lastM.content }
    | none => { success := false, content := "", error := some "没有执行计划" }
  | some p =>
    if p.subtasks.isEmpty then
      match msgs.getLast? with
      | some lastM => { success := true, content := lastM.content }
      | none => { success := false, content := "", error := some "没有执行计划" }
    else
      let results := p.subtasks.map (orchSubtaskEntry agents)
      { success := results.all fun r => r.success,
        content := String.intercalate "\n\n---\n\n" (results.map orchActOutput),
        data := some results }

/-- C6: a subtask naming an unregistered role yields a failure entry for
that subtask only; every subtask still produces its entry, in plan order
(`data` is the entry list mapped over the subtasks); the aggregate
`success` is the AND over all entries — hence `false` here. -/
theorem orchestrator_act_unknown_role (msgs : List Message)
    (agents : String → Option AgentRun) (p : TaskPlan) (pre post : List Subtask)
    (st : Subtask) (hplan : p.subtasks = pre ++ st :: post)
    (hrole : agents st.agent = none) :
    (orchAct (some p) msgs agents).data
      = some ((pre ++ st :: post).map (orchSubtaskEntry agents)) ∧
    orchSubtaskEntry agents st
      = { agent := st.agent, task := st.task, success := false,
          error := some ("未找到智能体 " ++ st.agent) } ∧
    (orchAct (some p) msgs agents).success
      = ((pre ++ st :: post).map (orchSubtaskEntry agents)).all (fun r => r.success) ∧
    (orchAct (some p) msgs agents).success = false := by
  have hentry : orchSubtaskEntry agents st
      = { agent := st.agent, task := st.task, success := false,
          error := some ("未找到智能体 " ++ st.agent) } := by
    unfold orchSubtaskEntry
    rw [hrole]
  have hne : (pre ++ st :: post).isEmpty = false := by
    cases pre <;> rfl
  have hact : orchAct (some p) msgs agents
      = { success := ((pre ++ st :: post).map (orchSubtaskEntry agents)).all
            (fun r => r.success),
          content := String.intercalate "\n\n---\n\n"
            (((pre ++ st :: post).map (orchSubtaskEntry agents)).map orchActOutput),
          data := some ((pre ++ st :: post).map (orchSubtaskEntry agents)) } := by
    unfold orchAct
    dsimp only
    rw [hplan, hne]
    rfl
  refine ⟨by rw [hact], hentry, by rw [hact], ?_⟩
  rw [hact]
  simp only [List.map_append, List.map_cons, List.all_append, List.all_cons, hentry]
  simp

/-- A worker registry with no agents at all, for the C6 witness. -/
def noAgents : String → Option AgentRun := fun _ => none

/-- A concrete one-subtask plan naming an unknown role. -/
def demoPlanUnknown : TaskPlan :=
  { original_task := "t",
    subtasks := [{ id := some "s1", agent := "ghost", task := "do", reason := "r" }] }

/-- C6 witness: the concrete unknown-role plan yields the failure entry
and aggregate failure. -/
theorem orchestrator_act_unknown_role_witness :
    (orchAct (some demoPlanUnknown) [] noAgents).data
      = some (([] ++ ({ id := some "s1", agent := "ghost", task := "do", reason := "r" }
          : Subtask) :: []).map (orchSubtaskEntry noAgents)) ∧
    (orchAct (some demoPlanUnknown) [] noAgents).success = false :=
  have h := orchestrator_act_unknown_role [] noAgents demoPlanUnknown [] []
    { id := some "s1", agent := "ghost", task := "do", reason := "r" } rfl rfl
  ⟨h.1, h.2.2.2⟩

/-! ### C7: the `run` loop -/

/-- What one think→act→observe iteration produces: the plan state after
`think`, the `act` response, and the observation text (oracle data, as
each phase calls the backend). -/
structure IterOutcome where
  planAfter : Option TaskPlan
  result : AgentResponse (List ResultEntry)
  observation : String

/-- The final response built after the loop from the locals
`result` / `observation`. -/
def finalResponse (o : IterOutcome) : AgentResponse (List ResultEntry) :=
  { success := o.result.success, content := o.observation, data := o.result.data }

/-- The loop-exit test `result.success or not self.current_plan`. -/
def stopIter (o : IterOutcome) : Bool := o.result.success || o.planAfter.isNone

/-- The iteration loop of `Orchestrator.run`: `remaining` iterations left,
`i` the next iteration index, `last` the loop locals of the previous
iteration (`none` = still unbound).  Exhausting the loop with `last`
unbound is Python's `NameError` on `result`. -/
def orchRunAux (outcomes : Nat → IterOutcome) :
    Nat → Nat → Option IterOutcome → Nat × Except PyErr (AgentResponse (List ResultEntry))
  | 0, i, last =>
    (i, match last with
        | none => .error .nameErr
        | some o => .ok (finalResponse o))
  | remaining+1, i, _last =>
    let o := outcomes i
    if stopIter o then (i+1, .ok (finalResponse o))
    else orchRunAux outcomes remaining (i+1) (some o)

/-- `Orchestrator.run` under `max_iterations`, returning the number of
think→act→observe cycles executed together with its result. -/
def orchRun (maxIter : Nat) (outcomes : Nat → IterOutcome) :
    Nat × Except PyErr (AgentResponse (List ResultEntry)) :=
  orchRunAux outcomes maxIter 0 none

lemma orchRunAux_spec (outcomes : Nat → IterOutcome) : ∀ (remaining : Nat), 1 ≤ remaining →
    ∀ (i : Nat) (last : Option IterOutcome),
    ∃ k, orchRunAux outcomes remaining i last
        = (i + k, .ok (finalResponse (outcomes (i + k - 1)))) ∧
      1 ≤ k ∧ k ≤ remaining ∧
      (∀ j, i ≤ j → j < i + k - 1 → stopIter (outcomes j) = false) ∧
      (stopIter (outcomes (i + k - 1)) = true ∨ k = remaining) := by
  intro remaining
  induction remaining with
  | zero => intro h; omega
  | succ r ih =>
    intro _ i _last
    rw [orchRunAux]
    by_cases hstop : stopIter (outcomes i) = true
    · rw [if_pos hstop]
      refine ⟨1, ?_, le_refl 1, by omega, ?_, Or.inl ?_⟩
      · simp
      · intro j h1 h2
        omega
      · simpa using hstop
    · rw [if_neg hstop]
      cases r with
      | zero =>
        refine ⟨1, ?_, le_refl 1, le_refl 1, ?_, Or.inr rfl⟩
        · simp [orchRunAux]
        · intro j h1 h2
          omega
      | succ r2 =>
        obtain ⟨k, heq, hk1, hkr, hflat, hor⟩ := ih (by omega) (i+1) (some (outcomes i))
        refine ⟨k + 1, ?_, by omega, by omega, ?_, ?_⟩
        · rw [heq, show i + 1 + k = i + (k + 1) from by omega]
        · intro j h1 h2
          rcases Nat.eq_or_lt_of_le h1 with rfl | hlt
          · simpa using hstop
          · exact hflat j (by omega) (by omega)
        · rcases hor with h | h
          · left
            have : i + 1 + k - 1 = i + (k + 1) - 1 := by omega
            rwa [this] at h
          · right
            omega

/-- C7 (amended): for `max_iterations ≥ 1`, `run` executes between 1 and
`max_iterations` think→act→observe cycles, stops at the first iteration
whose act result is successful or whose plan is absent (all earlier
iterations fail that test), returns (without raising) the response built
from the last executed iteration, and the only other way to stop is
exhausting the budget; with `max_iterations = 0`, the loop never binds its
locals and `run` raises `NameError` instead of returning. -/
theorem orchestrator_run_iteration_budget (maxIter : Nat) (outcomes : Nat → IterOutcome)
    (hpos : 1 ≤ maxIter) :
    (∃ k, orchRun maxIter outcomes = (k, .ok (finalResponse (outcomes (k - 1)))) ∧
      1 ≤ k ∧ k ≤ maxIter ∧
      (∀ j, j < k - 1 → stopIter (outcomes j) = false) ∧
      (stopIter (outcomes (k - 1)) = true ∨ k = maxIter)) ∧
    (∀ f : Nat → IterOutcome, orchRun 0 f = (0, .error .nameErr)) := by
  constructor
  · obtain ⟨k, heq, hk1, hkr, hflat, hor⟩ := orchRunAux_spec outcomes maxIter hpos 0 none
    exact ⟨k, by simpa using heq, hk1, hkr,
      fun j hj => hflat j (Nat.zero_le j) (by omega), by simpa using hor⟩
  · intro f
    rfl

/-- A trivial iteration outcome for concrete runs. -/
def demoOutcome : IterOutcome :=
  { planAfter := none, result := { success := false, content := "" }, observation := "obs" }

/-- C7 counterexample: with `max_iterations = 0` the loop body never runs,
so `result`/`observation` are unbound and `run` raises `NameError`
instead of returning a best-effort last result. -/
theorem orchestrator_run_zero_iterations_raises :
    orchRun 0 (fun _ => demoOutcome) = (0, .error .nameErr) := rfl

/-- C7 witness: with one iteration and a stopping outcome, `run` executes
exactly one cycle and returns its response. -/
theorem orchestrator_run_iteration_budget_witness :
    (∃ k, orchRun 1 (fun _ => demoOutcome) = (k, .ok (finalResponse demoOutcome)) ∧
      1 ≤ k ∧ k ≤ 1 ∧
      (∀ j, j < k - 1 → stopIter ((fun _ => demoOutcome) j) = false) ∧
      (stopIter demoOutcome = true ∨ k = 1)) ∧
    (∀ f : Nat → IterOutcome, orchRun 0 f = (0, .error .nameErr)) :=
  (orchestrator_run_iteration_budget 1 (fun _ => demoOutcome) (le_refl 1))

/-! ### C8: `observe` -/

/-- `Orchestrator.observe`: requires a configured client; records the
success/failure note in short-term memory; asks the backend for the final
summary (an exception there propagates, after the short-term write);
stores the summary; and writes the long-term entry (importance `0.7`,
truncated summary) exactly when `current_plan` is set — regardless of
`result.success`. -/
def orchObserve (cfg : Option Unit) (llm : Except PyErr String) (mem : Memory)
    (plan : Option TaskPlan) (result : AgentResponse (List ResultEntry))
    (now : PyDateTime) : Memory × Except PyErr String :=
  match cfg with
  | none => (mem, .error (.valueErr "请先调用 init_config() 初始化配置"))
  | some _ =>
    let m1 := mem.add_short_term now
      ("执行结果: " ++ (if result.success then "成功" else "失败")) "result" []
    match llm with
    | .error e => (m1, .error e)
    | .ok summary =>
      match plan with
      | some p =>
        (m1.add_long_term now
          ("任务: " ++ p.original_task ++ "\n结果: " ++ pyStrTake summary 500)
          "observation" (7/10) [], .ok summary)
      | none => (m1, .ok summary)

/-- C8 (amended): with a configured client and a backend summary,
`observe` always appends the short-term success/failure note (it becomes
the newest short-term entry), returns the summary, and writes the
long-term entry — importance `0.7`, type `"observation"`, summarizing the
original task and the truncated synthesis — exactly when `current_plan`
is set: with no plan the long-term store is unchanged, with a plan (and
capacity room) the entry is appended, regardless of `result.success`. -/
theorem orchestrator_observe_behaviour (llmSummary : String) (mem : Memory)
    (plan : Option TaskPlan) (result : AgentResponse (List ResultEntry)) (now : PyDateTime)
    (hlimit : 0 < mem.short_term_limit) :
    ((orchObserve (some ()) (.ok llmSummary) mem plan result now).1.short_term.getLast?
      = some { content := "执行结果: " ++ (if result.success then "成功" else "失败"),
               timestamp := now, type := "result", metadata := [], importance := 1/2 }) ∧
    ((orchObserve (some ()) (.ok llmSummary) mem plan result now).2 = .ok llmSummary) ∧
    (plan = none →
      (orchObserve (some ()) (.ok llmSummary) mem plan result now).1.long_term
        = mem.long_term) ∧
    (∀ p, plan = some p → mem.long_term.length < mem.long_term_limit →
      (orchObserve (some ()) (.ok llmSummary) mem plan result now).1.long_term
        = mem.long_term
            ++ [{ content := "任务: " ++ p.original_task ++ "\n结果: "
                    ++ pyStrTake llmSummary 500,
                  timestamp := now, type := "observation", metadata := [],
                  importance := 7/10 }]) := by
  have hshort : ∀ (mm : Memory) (c t : String) (md : List (String × Json)),
      0 < mm.short_term_limit →
      (mm.add_short_term now c t md).short_term.getLast?
        = some { content := c, timestamp := now, type := t, metadata := md,
                 importance := 1/2 } := by
    intro mm c t md hpos
    unfold Memory.add_short_term
    dsimp only
    split_ifs with hpop
    · have hne : mm.short_term ≠ [] := by
        intro hnil
        rw [hnil] at hpop
        simp at hpop
        omega
      rw [tail_append_of_ne_nil _ _ hne, List.getLast?_concat]
    · rw [List.getLast?_concat]
  have hstshape : ∀ (mm : Memory) (c t : String) (md : List (String × Json)),
      (mm.add_short_term now c t md).long_term = mm.long_term ∧
      (mm.add_short_term now c t md).long_term_limit = mm.long_term_limit := by
    intro mm c t md
    unfold Memory.add_short_term
    dsimp only
    split_ifs <;> exact ⟨rfl, rfl⟩
  cases plan with
  | none =>
    refine ⟨?_, rfl, ?_, ?_⟩
    · exact hshort mem _ _ [] hlimit
    · intro _
      exact (hstshape mem _ _ []).1
    · intro p hp
      cases hp
  | some p =>
    refine ⟨?_, rfl, ?_, ?_⟩
    · have h1 := hshort mem ("执行结果: " ++ (if result.success then "成功" else "失败"))
        "result" [] hlimit
      unfold orchObserve
      dsimp only
      unfold Memory.add_long_term
      dsimp only
      rw [show ∀ (mm : Memory) (lt : List MemoryItem),
          ({ mm with long_term := lt } : Memory).short_term = mm.short_term
          from fun _ _ => rfl]
      exact h1
    · intro hcon
      cases hcon
    · intro q hq hroom
      obtain rfl : p = q := by injection hq
      unfold orchObserve
      dsimp only
      unfold Memory.add_long_term
      dsimp only
      rw [(hstshape mem _ _ []).1]
      unfold evictStepLT
      dsimp only
      rw [if_neg (by
        simp only [List.length_append, List.length_singleton,
          (hstshape mem ("执行结果: " ++ (if result.success then "成功" else "失败"))
            "result" []).2]
        omega)]

/-- A concrete plan for the C8 theorems. -/
def demoPlanObs : TaskPlan := { original_task := "the task", subtasks := [] }

/-- A concrete failed act-phase result. -/
def failedResult : AgentResponse (List ResultEntry) := { success := false, content := "" }

/-- C8 counterexample: with a plan set and a FAILED act result, `observe`
still writes the importance-0.7 long-term entry — the write is keyed on
the plan being set, not on `success = true`. -/
theorem observe_writes_longterm_on_failure :
    failedResult.success = false ∧
    (orchObserve (some ()) (.ok "summary") Memory.init (some demoPlanObs) failedResult
      ⟨2024,1,1,0,0,0,0⟩).1.long_term
      = [{ content := "任务: the task\n结果: summary", timestamp := ⟨2024,1,1,0,0,0,0⟩,
           type := "observation", metadata := [], importance := 7/10 }] := by
  constructor
  · rfl
  · have h := (orchestrator_observe_behaviour "summary" Memory.init (some demoPlanObs)
      failedResult ⟨2024,1,1,0,0,0,0⟩ (by norm_num [Memory.init])).2.2.2 demoPlanObs rfl
      (by norm_num [Memory.init])
    rw [h]
    rfl

/-- C8 witness: the amended behaviour at the concrete failed result — the
short-term note is appended, the summary is returned, and the plan-keyed
long-term write happens. -/
theorem orchestrator_observe_behaviour_witness :
    ((orchObserve (some ()) (.ok "summary") Memory.init (some demoPlanObs) failedResult
      ⟨2024,1,1,0,0,0,0⟩).1.short_term.getLast?
      = some { content := "执行结果: " ++ (if failedResult.success then "成功" else "失败"),
               timestamp := ⟨2024,1,1,0,0,0,0⟩, type := "result", metadata := [],
               importance := 1/2 }) ∧
    ((orchObserve (some ()) (.ok "summary") Memory.init (some demoPlanObs) failedResult
      ⟨2024,1,1,0,0,0,0⟩).2 = .ok "summary") :=
  have h := orchestrator_observe_behaviour "summary" Memory.init (some demoPlanObs)
    failedResult ⟨2024,1,1,0,0,0,0⟩ (by norm_num [Memory.init])
  ⟨h.1, h.2.1⟩

end Pollex
